import Mathlib

/-!
Verification of the CTKR construct graph engine.

A shallow embedding of the engine core: the Construct/Signature data model,
the store adapter (AbstractStore semantics), graph maintenance (Client
creation operations with bidirectional back-reference upkeep), the federated
query engine, and the functor construction engine (FunctorBuilder).

Modelling conventions:
  * opaque string identifiers (UUIDs) are modelled as natural numbers;
    the Client fresh-id supply (crypto.randomUUID) is a counter `nextId`,
    and well-formedness (`WF`) records that every stored id was minted
    below the counter, which models UUID freshness;
  * JavaScript Map objects are modelled as association lists with
    insertion-order iteration; `setA` overwrites in place exactly as
    Map.set does;
  * wall-clock timestamps are a counter `now` ticking at each store write;
  * thrown errors are `Except` errors carrying the data interpolated into
    the thrown message; conflict strings collected by the builder are
    modelled by the structured `Conflict` type carrying the same fields
    the messages interpolate;
  * `properties` payloads (opaque `Record<string, unknown>` blobs) are
    omitted: no engine control path reads them.
-/

namespace Ctkr

/-- Opaque construct / store identifiers (UUID strings in the source). -/
abbrev Id := Nat

/-! ### Association lists with JavaScript Map semantics -/

/-- Lookup of the first binding of key `k` (Map.get). -/
def lookupA {α : Type} (k : Id) : List (Id × α) → Option α
  | [] => none
  | (k₂, v₂) :: rest => if k₂ = k then some v₂ else lookupA k rest

/-- Map.set: overwrite the first binding of `k` in place, else append. -/
def setA {α : Type} (k : Id) (v : α) : List (Id × α) → List (Id × α)
  | [] => [(k, v)]
  | (k₂, v₂) :: rest => if k₂ = k then (k, v) :: rest else (k₂, v₂) :: setA k v rest

/-- Map.delete: remove the binding of `k`; result is paired with the
did-remove boolean Map.delete returns. -/
def removeA {α : Type} (k : Id) (l : List (Id × α)) : List (Id × α) × Bool :=
  ((l.filter fun p => p.1 ≠ k), (lookupA k l).isSome)

theorem lookupA_setA_self {α : Type} (k : Id) (v : α) (l : List (Id × α)) :
    lookupA k (setA k v l) = some v := by
  induction l with
  | nil => simp [setA, lookupA]
  | cons p rest ih =>
      by_cases h : p.1 = k
      · simp [setA, h, lookupA]
      · simp [setA, h, lookupA, ih]

theorem lookupA_setA_ne {α : Type} {k i : Id} (v : α) (l : List (Id × α))
    (h : i ≠ k) : lookupA i (setA k v l) = lookupA i l := by
  have hk : ¬ (k = i) := fun e => h e.symm
  induction l with
  | nil => simp [setA, lookupA, hk]
  | cons p rest ih =>
      by_cases hp : p.1 = k
      · subst hp
        simp [setA, lookupA, hk]
      · by_cases hpi : p.1 = i
        · simp [setA, hp, lookupA, hpi, h]
        · simp [setA, hp, lookupA, hpi, ih]

theorem setA_keys {α : Type} (k : Id) (v : α) (l : List (Id × α))
    (h : (lookupA k l).isSome) :
    (setA k v l).map Prod.fst = l.map Prod.fst := by
  induction l with
  | nil => simp [lookupA] at h
  | cons p rest ih =>
      by_cases hp : p.1 = k
      · simp [setA, hp]
      · simp [lookupA, hp] at h
        simp [setA, hp, ih h]

theorem setA_keys_append {α : Type} (k : Id) (v : α) (l : List (Id × α))
    (h : lookupA k l = none) :
    (setA k v l).map Prod.fst = l.map Prod.fst ++ [k] := by
  induction l with
  | nil => simp [setA]
  | cons p rest ih =>
      by_cases hp : p.1 = k
      · simp [lookupA, hp] at h
      · simp [lookupA, hp] at h
        simp [setA, hp, ih h]

theorem lookupA_eq_none_of_not_mem {α : Type} {k : Id} {l : List (Id × α)}
    (h : k ∉ l.map Prod.fst) : lookupA k l = none := by
  induction l with
  | nil => simp [lookupA]
  | cons p rest ih =>
      simp only [List.map_cons, List.mem_cons] at h
      push_neg at h
      have h1 : ¬ (p.1 = k) := fun e => h.1 e.symm
      simp [lookupA, h1, ih h.2]

theorem lookupA_isSome_iff_mem {α : Type} (k : Id) (l : List (Id × α)) :
    (lookupA k l).isSome ↔ k ∈ l.map Prod.fst := by
  induction l with
  | nil => simp [lookupA]
  | cons p rest ih =>
      by_cases hp : p.1 = k
      · simp [lookupA, hp]
      · have h1 : ¬ (k = p.1) := fun e => hp e.symm
        simp [lookupA, hp, ih, h1]

theorem lookupA_mem {α : Type} {k : Id} {v : α} {l : List (Id × α)}
    (h : lookupA k l = some v) : (k, v) ∈ l := by
  induction l with
  | nil => simp [lookupA] at h
  | cons p rest ih =>
      by_cases hp : p.1 = k
      · rw [lookupA, if_pos hp] at h
        cases p with
        | mk pk pv =>
            simp only at hp
            subst hp
            simp only [Option.some.injEq] at h
            subst h
            exact List.mem_cons_self _ _
      · rw [lookupA, if_neg hp] at h
        exact List.mem_cons_of_mem _ (ih h)

/-! ### Construct data model (§3 of the spec, src/src/types/index.ts) -/

/-- The `type` discriminator of a stored construct. -/
inductive CTCType where
  | Object
  | Morphism
  | Category
  | Functor
  | ObjectMapping
  | MorphismMapping
deriving DecidableEq

/-- CreateObjectInput. -/
structure ObjectFields where
  categoryId : Option Id := none
  morphismsFromIds : List Id := []
  morphismsToIds : List Id := []
  identityMorphismId : Option Id := none
deriving DecidableEq

/-- CreateMorphismInput; `isIdentity` is an optional boolean in the source
(absent on plain morphisms, `true` on auto-created identities). -/
structure MorphismFields where
  sourceId : Id
  targetId : Id
  categoryId : Option Id := none
  isIdentity : Option Bool := none
deriving DecidableEq

/-- CreateCategoryInput back-reference arrays. -/
structure CategoryFields where
  objectIds : List Id := []
  morphismIds : List Id := []
  functorsFromIds : List Id := []
  functorsToIds : List Id := []
deriving DecidableEq

/-- CreateFunctorInput. -/
structure FunctorFields where
  sourceCategoryId : Id
  targetCategoryId : Id
  objectMappingIds : List Id := []
  morphismMappingIds : List Id := []
deriving DecidableEq

/-- CreateObjectMappingInput: one row per mapped object pair. -/
structure ObjectMappingFields where
  functorId : Id
  sourceObjectId : Id
  targetObjectId : Id
deriving DecidableEq

/-- CreateMorphismMappingInput: one row per mapped morphism pair. -/
structure MorphismMappingFields where
  functorId : Id
  sourceMorphismId : Id
  targetMorphismId : Id
deriving DecidableEq

/-- The payload union CTCInput (null is `Option.none` at the use sites). -/
inductive CTCData where
  | category (c : CategoryFields)
  | object (o : ObjectFields)
  | morphism (m : MorphismFields)
  | functor (f : FunctorFields)
  | objectMapping (om : ObjectMappingFields)
  | morphismMapping (mm : MorphismMappingFields)
deriving DecidableEq

/-- Signature: (id, storeId, version). -/
structure Signature where
  id : Id
  storeId : Id
  version : Nat
deriving DecidableEq

/-- Metadata: optional name/description plus timestamps. -/
structure Metadata where
  name : Option String := none
  description : Option String := none
  createdAt : Nat
  updatedAt : Nat
deriving DecidableEq

/-- A stored construct: signature, metadata, type tag and data payload
(`data` is nullable in the source, hence `Option`). -/
structure StoredCTC where
  signature : Signature
  metadata : Metadata
  type : CTCType
  data : Option CTCData
deriving DecidableEq

/-- createSignature: fresh id, version 1. -/
def createSignature (freshId storeId : Id) : Signature :=
  { id := freshId, storeId := storeId, version := 1 }

/-- incrementVersion: bump `version` by one, keep id and storeId. -/
def incrementVersion (s : Signature) : Signature :=
  { s with version := s.version + 1 }

/-- Options bag passed to create/update (name, description). -/
structure CreateOpts where
  name : Option String := none
  description : Option String := none
deriving DecidableEq

/-- createMetadata: both timestamps set to the current instant. -/
def createMetadata (opts : CreateOpts) (now : Nat) : Metadata :=
  { name := opts.name, description := opts.description,
    createdAt := now, updatedAt := now }

/-- updateMetadata: overwrite name/description, refresh `updatedAt`,
keep `createdAt`. -/
def updateMetadata (md : Metadata) (name description : Option String)
    (now : Nat) : Metadata :=
  { md with name := name, description := description, updatedAt := now }

/-! ### Builder diagnostics (structured stand-ins for thrown / collected
message strings) -/

/-- A Functor Construction Engine derivation conflict (§4.3 steps 3 and 4).
The constructors carry exactly the ids the collected message strings
interpolate. -/
inductive Conflict where
  /-- Object `obj` must map to both `t1` (from morphism `m1`) and `t2`
  (from morphism `m2`). -/
  | mustMapToBoth (obj t1 m1 t2 m2 : Id)
  /-- Object `obj` is manually mapped to `manualTarget` but a morphism
  mapping requires it to map to `derivedTarget`. -/
  | manualVsDerived (obj manualTarget derivedTarget : Id)
deriving DecidableEq

/-- One entry of the `errors` array returned by `FunctorBuilder.validate`:
either a missing-required-field message from `isReady` or a conflict. -/
inductive BuilderMsg where
  | missingStore
  | missingSourceCategory
  | missingTargetCategory
  | conflict (c : Conflict)
deriving DecidableEq

/-- Thrown errors of the engine, carrying the data the thrown message
strings interpolate. -/
inductive CtkrError where
  /-- Store not attached: `sid`. -/
  | storeNotAttached (sid : Id)
  /-- Construct not found: `id` (AbstractStore.update / InMemoryStore.update). -/
  | constructNotFound (id : Id)
  /-- Failed to read updated object (Client.createObject re-read). -/
  | failedReadUpdatedObject
  /-- Source and target categories must be set before querying. -/
  | categoriesNotSet
  /-- Cannot map object `src` to `tgt`: morphism mapping already requires it
  to map to `required` (FunctorBuilder.mapObject fail-fast). -/
  | mapObjectConflict (src tgt required : Id)
  /-- Object `id` is not in the source category. -/
  | objectNotInSourceCategory (id : Id)
  /-- Morphism `id` is not in the source category. -/
  | morphismNotInSourceCategory (id : Id)
  /-- Morphism `id` has no data. -/
  | morphismHasNoData (id : Id)
  /-- Cannot build Functor: invalid configuration, followed by the collected
  error list. -/
  | cannotBuildFunctor (errors : List BuilderMsg)
deriving DecidableEq

deriving instance DecidableEq for Except

/-! ### Store adapter (AbstractStore over an in-memory map) -/

/-- One storage backend: its id and its keyed construct map, in insertion
order (a JavaScript Map). -/
structure StoreState where
  id : Id
  constructs : List (Id × StoredCTC)
deriving DecidableEq

/-- Store.read: point lookup, `undefined` on a miss. -/
def StoreState.readS (s : StoreState) (i : Id) : Option StoredCTC :=
  lookupA i s.constructs

/-- The `_store` primitive: keyed write (Map.set). -/
def StoreState.setS (s : StoreState) (i : Id) (c : StoredCTC) : StoreState :=
  { s with constructs := setA i c s.constructs }

/-- Store.list(type): all constructs of the type, in store order. -/
def StoreState.listS (s : StoreState) (ty : CTCType) : List StoredCTC :=
  (s.constructs.map Prod.snd).filter fun c => decide (c.type = ty)

/-- AbstractStore.create: mint a version-1 signature from the fresh id,
stamp metadata, write the construct under its id. -/
def storeCreate (s : StoreState) (ty : CTCType) (d : Option CTCData)
    (opts : CreateOpts) (freshId : Id) (now : Nat) : StoreState × StoredCTC :=
  let stored : StoredCTC :=
    { signature := createSignature freshId s.id
      metadata := createMetadata opts now
      type := ty
      data := d }
  (s.setS freshId stored, stored)

/-- AbstractStore.update: throws `Construct not found` on a miss, otherwise
bumps the version, refreshes metadata (name/description fall back to the
existing values) and replaces the data wholesale. -/
def storeUpdate (s : StoreState) (i : Id) (d : Option CTCData)
    (opts : CreateOpts) (now : Nat) :
    Except CtkrError (StoreState × StoredCTC) :=
  match s.readS i with
  | none => Except.error (.constructNotFound i)
  | some existing =>
      let updated : StoredCTC :=
        { existing with
            signature := incrementVersion existing.signature
            metadata := updateMetadata existing.metadata
              (opts.name <|> existing.metadata.name)
              (opts.description <|> existing.metadata.description) now
            data := d }
      Except.ok (s.setS i updated, updated)

/-- Store.delete: remove the key, returning whether it was present. -/
def storeDelete (s : StoreState) (i : Id) : StoreState × Bool :=
  let (cs, b) := removeA i s.constructs
  ({ s with constructs := cs }, b)

/-- Iterate `n` successive updates with the same payload and options
(each refreshes metadata and bumps the version once). -/
def storeUpdateN (s : StoreState) (i : Id) (d : Option CTCData)
    (opts : CreateOpts) (now : Nat) : Nat → Except CtkrError StoreState
  | 0 => Except.ok s
  | n + 1 => do
      let (s', _) ← storeUpdate s i d opts now
      storeUpdateN s' i d opts (now + 1) n

/-! ### Data-field accessors (JavaScript property reads through casts)

The engine reads `data` through casts such as `data as CreateObjectInput`;
a missing property reads as `undefined`. The accessors below return the
property when the payload variant carries it and `none` otherwise, which
matches the property-access semantics for every construct the engine
itself creates (the engine always pairs a `type` tag with the matching
payload variant). -/

/-- Payload of an Object-typed construct (`getObjectData` in the builder). -/
def getObjectData (c : StoredCTC) : Option ObjectFields :=
  match c.data with
  | some (.object o) => some o
  | _ => none

/-- Payload of a Morphism-typed construct (`getMorphismData` in the builder). -/
def getMorphismData (c : StoredCTC) : Option MorphismFields :=
  match c.data with
  | some (.morphism m) => some m
  | _ => none

/-- The `categoryId` property (present on Object and Morphism payloads). -/
def dataCategoryId (d : Option CTCData) : Option Id :=
  match d with
  | some (.object o) => o.categoryId
  | some (.morphism m) => m.categoryId
  | _ => none

/-- The `functorId` property (present on both mapping payloads). -/
def dataFunctorId (d : Option CTCData) : Option Id :=
  match d with
  | some (.objectMapping om) => some om.functorId
  | some (.morphismMapping mm) => some mm.functorId
  | _ => none

/-- Payload of an ObjectMapping row. -/
def getObjectMappingData (d : Option CTCData) : Option ObjectMappingFields :=
  match d with
  | some (.objectMapping om) => some om
  | _ => none

/-- Payload of a MorphismMapping row. -/
def getMorphismMappingData (d : Option CTCData) : Option MorphismMappingFields :=
  match d with
  | some (.morphismMapping mm) => some mm
  | _ => none

/-- The back-reference array fields maintained by `Client.addIdToArray`. -/
inductive ArrayField where
  | objectIds
  | morphismIds
  | functorsFromIds
  | functorsToIds
  | morphismsFromIds
  | morphismsToIds
  | objectMappingIds
  | morphismMappingIds
deriving DecidableEq

/-- Read an array field off a payload (`(data?.[field] as string[]) ?? []`). -/
def getArrField (d : Option CTCData) : ArrayField → List Id :=
  fun f =>
    match d, f with
    | some (.category c), .objectIds => c.objectIds
    | some (.category c), .morphismIds => c.morphismIds
    | some (.category c), .functorsFromIds => c.functorsFromIds
    | some (.category c), .functorsToIds => c.functorsToIds
    | some (.object o), .morphismsFromIds => o.morphismsFromIds
    | some (.object o), .morphismsToIds => o.morphismsToIds
    | some (.functor fn), .objectMappingIds => fn.objectMappingIds
    | some (.functor fn), .morphismMappingIds => fn.morphismMappingIds
    | _, _ => []

/-- Write an array field back (`{...data, [field]: arr}`). When the payload
variant does not carry the field, JavaScript would graft a new property
onto the foreign shape; no engine read path ever consults such a grafted
property, so the embedding leaves the payload unchanged in that case. -/
def setArrField (d : Option CTCData) (f : ArrayField) (l : List Id) :
    Option CTCData :=
  match d, f with
  | some (.category c), .objectIds => some (.category { c with objectIds := l })
  | some (.category c), .morphismIds => some (.category { c with morphismIds := l })
  | some (.category c), .functorsFromIds => some (.category { c with functorsFromIds := l })
  | some (.category c), .functorsToIds => some (.category { c with functorsToIds := l })
  | some (.object o), .morphismsFromIds => some (.object { o with morphismsFromIds := l })
  | some (.object o), .morphismsToIds => some (.object { o with morphismsToIds := l })
  | some (.functor fn), .objectMappingIds => some (.functor { fn with objectMappingIds := l })
  | some (.functor fn), .morphismMappingIds => some (.functor { fn with morphismMappingIds := l })
  | _, _ => d

/-! ### The Client: attached stores, fresh-id supply, clock -/

/-- The Client state: the registry of attached stores (a Map in attachment
order), the fresh-id counter standing in for crypto.randomUUID, and the
clock. -/
structure ClientState where
  stores : List StoreState
  nextId : Id
  now : Nat
deriving DecidableEq

/-- Map.get on the store registry. -/
def getStoreC (st : ClientState) (sid : Id) : Option StoreState :=
  st.stores.find? fun s => decide (s.id = sid)

/-- Whether `sid` is attached (`this.stores.has(store.id)`). -/
def attachedC (st : ClientState) (sid : Id) : Prop :=
  (getStoreC st sid).isSome

instance (st : ClientState) (sid : Id) : Decidable (attachedC st sid) := by
  unfold attachedC
  infer_instance

/-- Replace the store registered under `sid` (first match, as in a Map). -/
def replaceStoreL (sid : Id) (s' : StoreState) : List StoreState → List StoreState
  | [] => []
  | s :: rest => if s.id = sid then s' :: rest else s :: replaceStoreL sid s' rest

/-- Map.set on the store registry (Client.attachStore). -/
def setStoreL (s : StoreState) : List StoreState → List StoreState
  | [] => [s]
  | s₂ :: rest => if s₂.id = s.id then s :: rest else s₂ :: setStoreL s rest

/-- Client.attachStore. -/
def attachStoreC (st : ClientState) (s : StoreState) : ClientState :=
  { st with stores := setStoreL s st.stores }

/-- Client.getCTC: resolve an id by scanning all attached stores in
attachment order; `undefined` when no store holds it. -/
def readAcrossL (i : Id) : List StoreState → Option StoredCTC
  | [] => none
  | s :: rest =>
      match s.readS i with
      | some c => some c
      | none => readAcrossL i rest

/-- Resolution of an id against the whole federation. -/
def readAcross (st : ClientState) (i : Id) : Option StoredCTC :=
  readAcrossL i st.stores

/-- Client.findStoreFor: the id of the first attached store holding `i`. -/
def findStoreForL (i : Id) : List StoreState → Option Id
  | [] => none
  | s :: rest => if (s.readS i).isSome then some s.id else findStoreForL i rest

/-- Client.findStoreFor on the client state. -/
def findStoreFor (st : ClientState) (i : Id) : Option Id :=
  findStoreForL i st.stores

/-- Client.createCTC: requires the store to be attached, then delegates to
the store create primitive; mints the next fresh id and ticks the clock. -/
def createCTCc (st : ClientState) (sid : Id) (ty : CTCType)
    (d : Option CTCData) (opts : CreateOpts) :
    Except CtkrError (ClientState × StoredCTC) :=
  match getStoreC st sid with
  | none => Except.error (.storeNotAttached sid)
  | some s =>
      let (s', stored) := storeCreate s ty d opts st.nextId st.now
      Except.ok
        ({ stores := replaceStoreL sid s' st.stores
           nextId := st.nextId + 1
           now := st.now + 1 }, stored)

/-- A direct `store.update` call routed through the client state (the store
is addressed by id; errors surface unchanged). -/
def updateInStoreC (st : ClientState) (sid : Id) (i : Id)
    (d : Option CTCData) (opts : CreateOpts) :
    Except CtkrError (ClientState × StoredCTC) :=
  match getStoreC st sid with
  | none => Except.error (.storeNotAttached sid)
  | some s => do
      let (s', c) ← storeUpdate s i d opts st.now
      Except.ok ({ st with stores := replaceStoreL sid s' st.stores
                           now := st.now + 1 }, c)

/-- Client.addIdToArray: read the referent in the chosen store, silently
return when it is absent, skip the write when the id is already present,
otherwise append and write back through store.update. -/
def addIdToArray (st : ClientState) (sid : Id) (cid : Id) (f : ArrayField)
    (newId : Id) : ClientState :=
  match getStoreC st sid with
  | none => st
  | some s =>
      match s.readS cid with
      | none => st
      | some c =>
          let cur := getArrField c.data f
          if newId ∈ cur then st
          else
            match storeUpdate s cid (setArrField c.data f (cur ++ [newId])) {} st.now with
            | Except.ok (s', _) =>
                { st with stores := replaceStoreL sid s' st.stores
                          now := st.now + 1 }
            | Except.error _ => st

/-! ### Graph maintenance: typed creation operations (Client) -/

/-- Client.createCategory: a Category with empty back-reference arrays. -/
def createCategoryC (st : ClientState) (sid : Id) (opts : CreateOpts) :
    Except CtkrError (ClientState × StoredCTC) :=
  createCTCc st sid .Category (some (.category {})) opts

/-- Client.createObject: create the Object, append it to the category's
`objectIds`, auto-create the identity morphism, wire
`identityMorphismId`/`morphismsFromIds`/`morphismsToIds` through a direct
store.update, append the identity to the category's `morphismIds`, and
return the re-read Object. -/
def createObjectC (st : ClientState) (sid : Id) (catOpt : Option Id)
    (opts : CreateOpts) : Except CtkrError (ClientState × StoredCTC) := do
  let d : CTCData := .object { categoryId := catOpt }
  let (st1, stored) ← createCTCc st sid .Object (some d) opts
  let objectId := stored.signature.id
  let st2 :=
    match catOpt with
    | some cid => addIdToArray st1 ((findStoreFor st1 cid).getD sid) cid .objectIds objectId
    | none => st1
  let identityData : CTCData :=
    .morphism { sourceId := objectId, targetId := objectId
                categoryId := catOpt, isIdentity := some true }
  let identityName := String.append "id_" (opts.name.getD "unnamed")
  let (st3, idm) ← createCTCc st2 sid .Morphism (some identityData)
    { name := some identityName }
  let identityId := idm.signature.id
  let updatedData : CTCData :=
    .object { categoryId := catOpt
              identityMorphismId := some identityId
              morphismsFromIds := [identityId]
              morphismsToIds := [identityId] }
  let (st4, _) ← updateInStoreC st3 sid objectId (some updatedData) {}
  let st5 :=
    match catOpt with
    | some cid => addIdToArray st4 ((findStoreFor st4 cid).getD sid) cid .morphismIds identityId
    | none => st4
  match (getStoreC st5 sid).bind fun s => s.readS objectId with
  | none => Except.error .failedReadUpdatedObject
  | some updatedStored => Except.ok (st5, updatedStored)

/-- Client.createMorphism: create the Morphism, then append its id to the
category's `morphismIds` (if a category was given), the source object's
`morphismsFromIds` and the target object's `morphismsToIds`, each routed
to whichever store holds the referent. -/
def createMorphismC (st : ClientState) (sourceId targetId : Id) (sid : Id)
    (catOpt : Option Id) (opts : CreateOpts) :
    Except CtkrError (ClientState × StoredCTC) := do
  let d : CTCData :=
    .morphism { sourceId := sourceId, targetId := targetId, categoryId := catOpt }
  let (st1, stored) ← createCTCc st sid .Morphism (some d) opts
  let morphismId := stored.signature.id
  let st2 :=
    match catOpt with
    | some cid => addIdToArray st1 ((findStoreFor st1 cid).getD sid) cid .morphismIds morphismId
    | none => st1
  let st3 := addIdToArray st2 ((findStoreFor st2 sourceId).getD sid) sourceId
    .morphismsFromIds morphismId
  let st4 := addIdToArray st3 ((findStoreFor st3 targetId).getD sid) targetId
    .morphismsToIds morphismId
  Except.ok (st4, stored)

/-- Client.createFunctor: create the Functor, then append its id to the
source category's `functorsFromIds` and the target category's
`functorsToIds`. -/
def createFunctorC (st : ClientState) (sourceCategoryId targetCategoryId : Id)
    (sid : Id) (opts : CreateOpts) :
    Except CtkrError (ClientState × StoredCTC) := do
  let d : CTCData :=
    .functor { sourceCategoryId := sourceCategoryId
               targetCategoryId := targetCategoryId }
  let (st1, stored) ← createCTCc st sid .Functor (some d) opts
  let functorId := stored.signature.id
  let st2 := addIdToArray st1 ((findStoreFor st1 sourceCategoryId).getD sid)
    sourceCategoryId .functorsFromIds functorId
  let st3 := addIdToArray st2 ((findStoreFor st2 targetCategoryId).getD sid)
    targetCategoryId .functorsToIds functorId
  Except.ok (st3, stored)

/-- Client.addObjectMapping: create the ObjectMapping row and append its id
to the functor's `objectMappingIds`. -/
def addObjectMappingC (st : ClientState) (functorId srcObjId tgtObjId : Id)
    (sid : Id) : Except CtkrError (ClientState × StoredCTC) := do
  let d : CTCData :=
    .objectMapping { functorId := functorId, sourceObjectId := srcObjId
                     targetObjectId := tgtObjId }
  let (st1, stored) ← createCTCc st sid .ObjectMapping (some d) {}
  let st2 := addIdToArray st1 ((findStoreFor st1 functorId).getD sid)
    functorId .objectMappingIds stored.signature.id
  Except.ok (st2, stored)

/-- Client.addMorphismMapping: create the MorphismMapping row and append
its id to the functor's `morphismMappingIds`. -/
def addMorphismMappingC (st : ClientState) (functorId srcMorId tgtMorId : Id)
    (sid : Id) : Except CtkrError (ClientState × StoredCTC) := do
  let d : CTCData :=
    .morphismMapping { functorId := functorId, sourceMorphismId := srcMorId
                       targetMorphismId := tgtMorId }
  let (st1, stored) ← createCTCc st sid .MorphismMapping (some d) {}
  let st2 := addIdToArray st1 ((findStoreFor st1 functorId).getD sid)
    functorId .morphismMappingIds stored.signature.id
  Except.ok (st2, stored)

/-- Client.getObject: federated read, filtered to Object-typed constructs. -/
def getObjectC (st : ClientState) (i : Id) : Option StoredCTC :=
  match readAcross st i with
  | some c => if c.type = .Object then some c else none
  | none => none

/-- Client.getMorphism: federated read, filtered to Morphism-typed
constructs. -/
def getMorphismC (st : ClientState) (i : Id) : Option StoredCTC :=
  match readAcross st i with
  | some c => if c.type = .Morphism then some c else none
  | none => none

/-- Client.getFunctor: federated read, filtered to Functor-typed
constructs. -/
def getFunctorC (st : ClientState) (i : Id) : Option StoredCTC :=
  match readAcross st i with
  | some c => if c.type = .Functor then some c else none
  | none => none

/-! ### Federated Query Engine (src/src/client/QueryEngine.ts) -/

/-- QueryEngine.getObjectsInCategory: scan list(Object) across all stores,
keep those whose `categoryId` matches. -/
def qObjectsInCategory (st : ClientState) (categoryId : Id) : List StoredCTC :=
  (st.stores.map fun s =>
      (s.listS .Object).filter fun c => decide (dataCategoryId c.data = some categoryId)).flatten

/-- QueryEngine.getMorphismsInCategory. -/
def qMorphismsInCategory (st : ClientState) (categoryId : Id) : List StoredCTC :=
  (st.stores.map fun s =>
      (s.listS .Morphism).filter fun c => decide (dataCategoryId c.data = some categoryId)).flatten

/-- QueryEngine.getObjectMappings: all ObjectMapping rows of a functor. -/
def qObjectMappings (st : ClientState) (functorId : Id) : List StoredCTC :=
  (st.stores.map fun s =>
      (s.listS .ObjectMapping).filter fun c => decide (dataFunctorId c.data = some functorId)).flatten

/-- QueryEngine.getMorphismMappings: all MorphismMapping rows of a functor. -/
def qMorphismMappings (st : ClientState) (functorId : Id) : List StoredCTC :=
  (st.stores.map fun s =>
      (s.listS .MorphismMapping).filter fun c => decide (dataFunctorId c.data = some functorId)).flatten

/-- Scan of the mapping rows for `getTargetObjectForSource`: the first row
whose `sourceObjectId` matches and whose target resolves wins; a matching
row whose target resolves nowhere is passed over. -/
def firstTargetHit (st : ClientState) (sourceObjectId : Id) :
    List StoredCTC → Option StoredCTC
  | [] => none
  | m :: rest =>
      match getObjectMappingData m.data with
      | some om =>
          if om.sourceObjectId = sourceObjectId then
            match readAcross st om.targetObjectId with
            | some obj => some obj
            | none => firstTargetHit st sourceObjectId rest
          else firstTargetHit st sourceObjectId rest
      | none => firstTargetHit st sourceObjectId rest

/-- QueryEngine.getTargetObjectForSource (image of one object). -/
def qTargetObjectForSource (st : ClientState) (functorId sourceObjectId : Id) :
    Option StoredCTC :=
  firstTargetHit st sourceObjectId (qObjectMappings st functorId)

/-- Collection pass for `getSourceObjectsForTarget`: sources of every row
whose `targetObjectId` matches, with unresolvable sources dropped. -/
def collectSourceHits (st : ClientState) (targetObjectId : Id) :
    List StoredCTC → List StoredCTC
  | [] => []
  | m :: rest =>
      match getObjectMappingData m.data with
      | some om =>
          if om.targetObjectId = targetObjectId then
            match readAcross st om.sourceObjectId with
            | some obj => obj :: collectSourceHits st targetObjectId rest
            | none => collectSourceHits st targetObjectId rest
          else collectSourceHits st targetObjectId rest
      | none => collectSourceHits st targetObjectId rest

/-- QueryEngine.getSourceObjectsForTarget (preimage of one object). -/
def qSourceObjectsForTarget (st : ClientState) (functorId targetObjectId : Id) :
    List StoredCTC :=
  collectSourceHits st targetObjectId (qObjectMappings st functorId)

/-! ### Functor Construction Engine (FunctorBuilder) -/

/-- A derived object mapping: target object plus the morphism mapping the
derivation came from. -/
structure DerivedEntry where
  targetId : Id
  fromMorphismId : Id
deriving DecidableEq

/-- The cached listing of one category (objects and morphisms). -/
structure CatCache where
  objects : List StoredCTC
  morphisms : List StoredCTC
deriving DecidableEq

/-- The FunctorBuilder state: configured store and categories, the three
mapping maps and the two category caches. -/
structure FBuilder where
  store : Option Id := none
  sourceCat : Option Id := none
  targetCat : Option Id := none
  name : Option String := none
  description : Option String := none
  manualObjectMappings : List (Id × Id) := []
  derivedObjectMappings : List (Id × DerivedEntry) := []
  morphismMappings : List (Id × Id) := []
  sourceCategoryData : Option CatCache := none
  targetCategoryData : Option CatCache := none
deriving DecidableEq

/-- FunctorBuilder.sourceCategory: select the source category, drop the
cached listing and clear all three mapping maps. -/
def setSourceCategory (b : FBuilder) (c : Id) : FBuilder :=
  { b with sourceCat := some c
           sourceCategoryData := none
           manualObjectMappings := []
           derivedObjectMappings := []
           morphismMappings := [] }

/-- FunctorBuilder.targetCategory: select the target category, drop the
cached listing and clear all three mapping maps. -/
def setTargetCategory (b : FBuilder) (c : Id) : FBuilder :=
  { b with targetCat := some c
           targetCategoryData := none
           manualObjectMappings := []
           derivedObjectMappings := []
           morphismMappings := [] }

/-- FunctorBuilder.mapObject: fail fast when the current derived map
already forces a different target for this source, otherwise record the
manual mapping (Map.set, last write wins). -/
def mapObjectF (b : FBuilder) (sourceId targetId : Id) :
    Except CtkrError FBuilder :=
  match lookupA sourceId b.derivedObjectMappings with
  | some derived =>
      if derived.targetId ≠ targetId then
        Except.error (.mapObjectConflict sourceId targetId derived.targetId)
      else
        Except.ok { b with manualObjectMappings := setA sourceId targetId b.manualObjectMappings }
  | none =>
      Except.ok { b with manualObjectMappings := setA sourceId targetId b.manualObjectMappings }

/-- FunctorBuilder.mapMorphism: record the morphism mapping only; derived
object mappings are recomputed lazily on the next query/validate/build. -/
def mapMorphismF (b : FBuilder) (sourceId targetId : Id) : FBuilder :=
  { b with morphismMappings := setA sourceId targetId b.morphismMappings }

/-- FunctorBuilder.ensureCategoryDataLoaded: requires both categories to be
set, then loads each missing cache from the federated query engine. -/
def ensureLoaded (b : FBuilder) (st : ClientState) :
    Except CtkrError FBuilder :=
  match b.sourceCat, b.targetCat with
  | some sc, some tc =>
      let b1 :=
        match b.sourceCategoryData with
        | some _ => b
        | none =>
            { b with sourceCategoryData := some ⟨qObjectsInCategory st sc, qMorphismsInCategory st sc⟩ }
      let b2 :=
        match b1.targetCategoryData with
        | some _ => b1
        | none =>
            { b1 with targetCategoryData := some ⟨qObjectsInCategory st tc, qMorphismsInCategory st tc⟩ }
      Except.ok b2
  | _, _ => Except.error .categoriesNotSet

/-- One endpoint derivation step of `computeDerivedMappings`: propose
`objId ↦ tgtId` as derived from morphism mapping `fromMor`; an existing
entry with a different target is a conflict and wins, otherwise the entry
is (over)written. -/
def deriveStep (acc : List (Id × DerivedEntry) × List Conflict)
    (objId tgtId fromMor : Id) : List (Id × DerivedEntry) × List Conflict :=
  match lookupA objId acc.1 with
  | some existing =>
      if existing.targetId ≠ tgtId then
        (acc.1, acc.2 ++
          [.mustMapToBoth objId existing.targetId existing.fromMorphismId tgtId fromMor])
      else
        (setA objId ⟨tgtId, fromMor⟩ acc.1, acc.2)
  | none => (setA objId ⟨tgtId, fromMor⟩ acc.1, acc.2)

/-- Find a construct in a listing by signature id
(`morphisms.find(m => m.signature.id === id)`). -/
def findById (l : List StoredCTC) (i : Id) : Option StoredCTC :=
  l.find? fun c => decide (c.signature.id = i)

/-- Processing of one declared morphism mapping inside
`computeDerivedMappings`: resolve both morphisms in the cached listings,
skip the pair if either is missing or has no data, otherwise derive both
endpoint mappings (source endpoint first). -/
def deriveMapping (srcMors tgtMors : List StoredCTC)
    (acc : List (Id × DerivedEntry) × List Conflict) (mm : Id × Id) :
    List (Id × DerivedEntry) × List Conflict :=
  match findById srcMors mm.1, findById tgtMors mm.2 with
  | some srcMor, some tgtMor =>
      match getMorphismData srcMor, getMorphismData tgtMor with
      | some srcMorData, some tgtMorData =>
          let acc1 := deriveStep acc srcMorData.sourceId tgtMorData.sourceId mm.1
          deriveStep acc1 srcMorData.targetId tgtMorData.targetId mm.1
      | _, _ => acc
  | _, _ => acc

/-- The derivation fold over all declared morphism mappings, starting from
the cleared derived map. -/
def deriveAll (srcMors tgtMors : List StoredCTC) (mms : List (Id × Id)) :
    List (Id × DerivedEntry) × List Conflict :=
  mms.foldl (deriveMapping srcMors tgtMors) ([], [])

/-- Step 4 of the derivation: compare every derived mapping against the
manual mapping for the same source object; mismatches are conflicts. -/
def manualConflicts (manual : List (Id × Id))
    (derived : List (Id × DerivedEntry)) : List Conflict :=
  derived.foldl
    (fun cs p =>
      match lookupA p.1 manual with
      | some m =>
          if m ≠ p.2.targetId then
            cs ++ [.manualVsDerived p.1 m p.2.targetId]
          else cs
      | none => cs)
    []

/-- FunctorBuilder.computeDerivedMappings: load the category caches, clear
and rebuild the derived map from the morphism mappings, then check the
derived map against the manual mappings; returns the updated builder and
the collected conflicts. -/
def computeDerivedMappings (b : FBuilder) (st : ClientState) :
    Except CtkrError (FBuilder × List Conflict) := do
  let b1 ← ensureLoaded b st
  match b1.sourceCategoryData, b1.targetCategoryData with
  | some sc, some tc =>
      let (derived, conflicts) := deriveAll sc.morphisms tc.morphisms b1.morphismMappings
      let conflicts2 := conflicts ++ manualConflicts b1.manualObjectMappings derived
      Except.ok ({ b1 with derivedObjectMappings := derived }, conflicts2)
  | _, _ => Except.error .categoriesNotSet

/-- FunctorBuilder.getEffectiveObjectMapping: derived target if present,
else manual target. -/
def effectiveObjectMapping (b : FBuilder) (sourceObjId : Id) : Option Id :=
  match lookupA sourceObjId b.derivedObjectMappings with
  | some derived => some derived.targetId
  | none => lookupA sourceObjId b.manualObjectMappings

/-- FunctorBuilder.getObjectMappings: the manual map overlaid with the
derived map (derived wins). -/
def objectMappingsF (b : FBuilder) : List (Id × Id) :=
  b.derivedObjectMappings.foldl
    (fun acc p => setA p.1 p.2.targetId acc)
    b.manualObjectMappings

/-- FunctorBuilder.isReady missing-field list: store, source category and
target category are required. -/
def missingFieldsF (b : FBuilder) : List BuilderMsg :=
  (if b.store.isNone then [BuilderMsg.missingStore] else []) ++
  (if b.sourceCat.isNone then [BuilderMsg.missingSourceCategory] else []) ++
  (if b.targetCat.isNone then [BuilderMsg.missingTargetCategory] else [])

/-- The `{valid, errors}` record returned by FunctorBuilder.validate. -/
structure VResult where
  valid : Bool
  errors : List BuilderMsg
deriving DecidableEq

/-- FunctorBuilder.validate: missing required fields short-circuit;
otherwise derivation is rerun and its conflicts are the errors. -/
def validateF (b : FBuilder) (st : ClientState) :
    Except CtkrError (VResult × FBuilder) :=
  let missing := missingFieldsF b
  if missing.isEmpty then do
    let (b1, conflicts) ← computeDerivedMappings b st
    if conflicts.isEmpty then
      Except.ok (⟨true, []⟩, b1)
    else
      Except.ok (⟨false, conflicts.map BuilderMsg.conflict⟩, b1)
  else
    Except.ok (⟨false, missing⟩, b)

/-- The filter-and-fetch pass of `listAvailableMorphismTargets` over the
cached target-category morphisms: skip payload-less entries, skip identity
morphisms (auto-mapped, never user-chosen), skip endpoint-incompatible
candidates, then fetch each survivor through Client.getMorphism. -/
def collectMorphismTargets (st : ClientState)
    (reqSrc reqTgt : Option Id) : List StoredCTC → List StoredCTC
  | [] => []
  | tm :: rest =>
      match getMorphismData tm with
      | none => collectMorphismTargets st reqSrc reqTgt rest
      | some tmData =>
          if tmData.isIdentity = some true then
            collectMorphismTargets st reqSrc reqTgt rest
          else if (match reqSrc with
                   | some r => decide (tmData.sourceId ≠ r)
                   | none => false) then
            collectMorphismTargets st reqSrc reqTgt rest
          else if (match reqTgt with
                   | some r => decide (tmData.targetId ≠ r)
                   | none => false) then
            collectMorphismTargets st reqSrc reqTgt rest
          else
            match getMorphismC st tm.signature.id with
            | some rich => rich :: collectMorphismTargets st reqSrc reqTgt rest
            | none => collectMorphismTargets st reqSrc reqTgt rest

/-- FunctorBuilder.listAvailableMorphismTargets: load caches, recompute the
derivation, require the source morphism to be a listed member of the source
category with a payload, then return every compatible non-identity
target-category morphism. -/
def listAvailableMorphismTargetsF (b : FBuilder) (st : ClientState)
    (sourceId : Id) : Except CtkrError (List StoredCTC × FBuilder) := do
  let b1 ← ensureLoaded b st
  let (b2, _) ← computeDerivedMappings b1 st
  match b2.sourceCategoryData, b2.targetCategoryData with
  | some sc, some tc =>
      match findById sc.morphisms sourceId with
      | none => Except.error (.morphismNotInSourceCategory sourceId)
      | some sourceMor =>
          match getMorphismData sourceMor with
          | none => Except.error (.morphismHasNoData sourceId)
          | some srcMorData =>
              let reqSrc := effectiveObjectMapping b2 srcMorData.sourceId
              let reqTgt := effectiveObjectMapping b2 srcMorData.targetId
              Except.ok (collectMorphismTargets st reqSrc reqTgt tc.morphisms, b2)
  | _, _ => Except.error .categoriesNotSet

/-- The identity lookup of the build identity pass: find the object in the
cached category listing and read its stored `identityMorphismId`
(`cache.objects.find(...)` followed by `getObjectData(...)?.identityMorphismId`). -/
def identityOf (cache : CatCache) (objId : Id) : Option Id :=
  match (findById cache.objects objId).bind getObjectData with
  | some od => od.identityMorphismId
  | none => none

/-- The identity-mapping pass of `build` (step 4 of the build protocol):
for every effective object pair, look up both endpoints in the cached
category listings and, when both carry an `identityMorphismId`, create the
MorphismMapping row for the pair of identities. -/
def buildIdentityLoop (sc tc : CatCache) (functorId sid : Id)
    (pairs : List (Id × Id)) (st : ClientState) :
    Except CtkrError ClientState :=
  match pairs with
  | [] => Except.ok st
  | (srcObjId, tgtObjId) :: rest =>
      match identityOf sc srcObjId, identityOf tc tgtObjId with
      | some ia, some ix => do
          let (st', _) ← addMorphismMappingC st functorId ia ix sid
          buildIdentityLoop sc tc functorId sid rest st'
      | _, _ => buildIdentityLoop sc tc functorId sid rest st

/-- The object-mapping pass of `build` (step 2): one ObjectMapping row per
effective pair. -/
def buildObjectLoop (functorId sid : Id) (pairs : List (Id × Id))
    (st : ClientState) : Except CtkrError ClientState :=
  match pairs with
  | [] => Except.ok st
  | (srcId, tgtId) :: rest => do
      let (st', _) ← addObjectMappingC st functorId srcId tgtId sid
      buildObjectLoop functorId sid rest st'

/-- The morphism-mapping pass of `build` (step 3): one MorphismMapping row
per user-declared morphism mapping. -/
def buildMorphismLoop (functorId sid : Id) (pairs : List (Id × Id))
    (st : ClientState) : Except CtkrError ClientState :=
  match pairs with
  | [] => Except.ok st
  | (srcId, tgtId) :: rest => do
      let (st', _) ← addMorphismMappingC st functorId srcId tgtId sid
      buildMorphismLoop functorId sid rest st'

/-- FunctorBuilder.build: validate (throwing the collected error list when
invalid), create the Functor, persist object mappings, user-declared
morphism mappings and the automatic identity mappings, then return the
re-read Functor (or the original when the re-read misses). -/
def buildF (b : FBuilder) (st : ClientState) :
    Except CtkrError (FBuilder × ClientState × StoredCTC) := do
  let (validation, b1) ← validateF b st
  if validation.valid then
    match b1.store, b1.sourceCat, b1.targetCat with
    | some sid, some srcCatId, some tgtCatId => do
        let opts : CreateOpts := { name := b1.name, description := b1.description }
        let (st1, functor) ← createFunctorC st srcCatId tgtCatId sid opts
        let functorId := functor.signature.id
        let allObjectMappings := objectMappingsF b1
        let st2 ← buildObjectLoop functorId sid allObjectMappings st1
        let st3 ← buildMorphismLoop functorId sid b1.morphismMappings st2
        let b2 ← ensureLoaded b1 st3
        match b2.sourceCategoryData, b2.targetCategoryData with
        | some sc, some tc => do
            let st4 ← buildIdentityLoop sc tc functorId sid allObjectMappings st3
            match getFunctorC st4 functorId with
            | some refreshed => Except.ok (b2, st4, refreshed)
            | none => Except.ok (b2, st4, functor)
        | _, _ => Except.error .categoriesNotSet
    | _, _, _ =>
        -- unreachable: validation.valid forces all three fields to be set
        Except.error (.cannotBuildFunctor [])
  else
    Except.error (.cannotBuildFunctor validation.errors)

/-! ### Well-formedness of a client state

States reachable through the engine satisfy: every stored key was minted
below the fresh-id counter (UUID freshness), every construct is stored
under its own signature id, and no key is stored twice across the
federation (ids are globally unique). -/

/-- All keys stored anywhere in the federation, in scan order. -/
def allKeys (l : List StoreState) : List Id :=
  (l.map fun s => s.constructs.map Prod.fst).flatten

/-- Every stored key was minted below the fresh-id counter. -/
def IdsLt (st : ClientState) : Prop :=
  ∀ s ∈ st.stores, ∀ p ∈ s.constructs, p.1 < st.nextId

/-- Every construct is stored under its own signature id. -/
def KeysMatch (st : ClientState) : Prop :=
  ∀ s ∈ st.stores, ∀ p ∈ s.constructs, (p.2 : StoredCTC).signature.id = p.1

/-- Construct ids are globally unique across the federation. -/
def GlobalNodup (st : ClientState) : Prop :=
  (allKeys st.stores).Nodup

/-- Well-formedness of a client state. -/
def WF (st : ClientState) : Prop :=
  IdsLt st ∧ KeysMatch st ∧ GlobalNodup st

instance (st : ClientState) : Decidable (IdsLt st) := by
  unfold IdsLt
  infer_instance

instance (st : ClientState) : Decidable (KeysMatch st) := by
  unfold KeysMatch
  infer_instance

instance (st : ClientState) : Decidable (GlobalNodup st) := by
  unfold GlobalNodup
  infer_instance

instance (st : ClientState) : Decidable (WF st) := by
  unfold WF
  infer_instance

/-! ### Frame lemmas for the store registry -/

theorem getStoreC_id {st : ClientState} {sid : Id} {s : StoreState}
    (h : getStoreC st sid = some s) : s.id = sid := by
  have := List.find?_some h
  simpa using this

theorem getStoreC_mem {st : ClientState} {sid : Id} {s : StoreState}
    (h : getStoreC st sid = some s) : s ∈ st.stores :=
  List.mem_of_find?_eq_some h

theorem replaceStoreL_ids {sid : Id} {s' : StoreState} (l : List StoreState)
    (hid : s'.id = sid) :
    (replaceStoreL sid s' l).map StoreState.id = l.map StoreState.id := by
  induction l with
  | nil => simp [replaceStoreL]
  | cons s rest ih =>
      by_cases h : s.id = sid
      · simp [replaceStoreL, h, hid]
      · simp [replaceStoreL, h, ih]

theorem findStore_replace_self {sid : Id} {s₀ : StoreState} (s' : StoreState)
    (l : List StoreState)
    (h : l.find? (fun s => decide (s.id = sid)) = some s₀) (hid : s'.id = sid) :
    (replaceStoreL sid s' l).find? (fun s => decide (s.id = sid)) = some s' := by
  induction l with
  | nil => simp [List.find?] at h
  | cons s rest ih =>
      by_cases hs : s.id = sid
      · simp [replaceStoreL, hs, List.find?, hid]
      · rw [List.find?_cons_of_neg _ (by simpa using hs)] at h
        rw [replaceStoreL]
        simp only [hs, if_false]
        rw [List.find?_cons_of_neg _ (by simpa using hs)]
        exact ih h

theorem getStoreC_replace_self {st : ClientState} {sid : Id}
    {s₀ : StoreState} (s' : StoreState) (h : getStoreC st sid = some s₀)
    (hid : s'.id = sid) :
    getStoreC { st with stores := replaceStoreL sid s' st.stores } sid = some s' :=
  findStore_replace_self s' st.stores h hid

theorem findStore_replace_ne {sid sid' : Id} (s' : StoreState)
    (l : List StoreState) (hid : s'.id = sid) (hne : sid' ≠ sid) :
    (replaceStoreL sid s' l).find? (fun s => decide (s.id = sid')) =
      l.find? (fun s => decide (s.id = sid')) := by
  induction l with
  | nil => simp [replaceStoreL]
  | cons s rest ih =>
      by_cases hs : s.id = sid
      · have hs' : ¬ (s.id = sid') := by
          rw [hs]
          exact fun e => hne e.symm
        have hsid' : ¬ (s'.id = sid') := by
          rw [hid]
          exact fun e => hne e.symm
        rw [replaceStoreL]
        simp only [hs, if_true]
        rw [List.find?_cons_of_neg _ (by simpa using hsid'),
          List.find?_cons_of_neg _ (by simpa using hs')]
      · rw [replaceStoreL]
        simp only [hs, if_false]
        by_cases hmatch : s.id = sid'
        · simp [List.find?, hmatch]
        · rw [List.find?_cons_of_neg _ (by simpa using hmatch),
            List.find?_cons_of_neg _ (by simpa using hmatch)]
          exact ih

theorem readAcrossL_replace_frame {sid : Id} {s₀ s' : StoreState} {i : Id}
    (l : List StoreState)
    (h : l.find? (fun s => decide (s.id = sid)) = some s₀)
    (hread : s'.readS i = s₀.readS i) :
    readAcrossL i (replaceStoreL sid s' l) = readAcrossL i l := by
  induction l with
  | nil => simp [List.find?] at h
  | cons s rest ih =>
      by_cases hs : s.id = sid
      · rw [List.find?_cons_of_pos _ (by simpa using hs)] at h
        injection h with h
        subst h
        rw [replaceStoreL]
        simp only [hs, if_true]
        rw [readAcrossL, readAcrossL, hread]
      · rw [List.find?_cons_of_neg _ (by simpa using hs)] at h
        rw [replaceStoreL]
        simp only [hs, if_false]
        rw [readAcrossL, readAcrossL, ih h]

theorem readAcrossL_none_elim {i : Id} {l : List StoreState}
    (h : readAcrossL i l = none) : ∀ s ∈ l, s.readS i = none := by
  induction l with
  | nil => simp
  | cons s rest ih =>
      intro s' hs'
      rw [readAcrossL] at h
      cases hr : s.readS i with
      | some c => rw [hr] at h; simp at h
      | none =>
          rw [hr] at h
          rcases List.mem_cons.mp hs' with h1 | h1
          · subst h1; exact hr
          · exact ih h s' h1

theorem readAcrossL_replace_hit {sid : Id} {s₀ s' : StoreState} {k : Id}
    {c : StoredCTC} (l : List StoreState)
    (hnone : readAcrossL k l = none)
    (h : l.find? (fun s => decide (s.id = sid)) = some s₀)
    (hread : s'.readS k = some c) :
    readAcrossL k (replaceStoreL sid s' l) = some c := by
  induction l with
  | nil => simp [List.find?] at h
  | cons s rest ih =>
      rw [readAcrossL] at hnone
      cases hr : s.readS k with
      | some c₂ => rw [hr] at hnone; simp at hnone
      | none =>
          rw [hr] at hnone
          by_cases hs : s.id = sid
          · rw [replaceStoreL]
            simp only [hs, if_true]
            rw [readAcrossL, hread]
          · rw [List.find?_cons_of_neg _ (by simpa using hs)] at h
            rw [replaceStoreL]
            simp only [hs, if_false]
            rw [readAcrossL, hr]
            exact ih hnone h

theorem mem_setA {α : Type} {p : Id × α} {k : Id} {v : α} {l : List (Id × α)}
    (h : p ∈ setA k v l) : p = (k, v) ∨ p ∈ l := by
  induction l with
  | nil => simpa [setA] using h
  | cons q rest ih =>
      rw [setA] at h
      by_cases hq : q.1 = k
      · simp only [hq, if_true] at h
        rcases List.mem_cons.mp h with h1 | h1
        · exact Or.inl h1
        · exact Or.inr (List.mem_cons_of_mem _ h1)
      · simp only [hq, if_false] at h
        rcases List.mem_cons.mp h with h1 | h1
        · exact Or.inr (by rw [h1]; exact List.mem_cons_self _ _)
        · rcases ih h1 with h2 | h2
          · exact Or.inl h2
          · exact Or.inr (List.mem_cons_of_mem _ h2)

theorem mem_replaceStoreL {s : StoreState} {sid : Id} {s' : StoreState}
    {l : List StoreState} (h : s ∈ replaceStoreL sid s' l) :
    s = s' ∨ s ∈ l := by
  induction l with
  | nil => simp [replaceStoreL] at h
  | cons q rest ih =>
      rw [replaceStoreL] at h
      by_cases hq : q.id = sid
      · simp only [hq, if_true] at h
        rcases List.mem_cons.mp h with h1 | h1
        · exact Or.inl h1
        · exact Or.inr (List.mem_cons_of_mem _ h1)
      · simp only [hq, if_false] at h
        rcases List.mem_cons.mp h with h1 | h1
        · exact Or.inr (by rw [h1]; exact List.mem_cons_self _ _)
        · rcases ih h1 with h2 | h2
          · exact Or.inl h2
          · exact Or.inr (List.mem_cons_of_mem _ h2)

theorem allKeys_replace {sid : Id} {s₀ : StoreState} (s' : StoreState)
    (l : List StoreState)
    (h : l.find? (fun s => decide (s.id = sid)) = some s₀) :
    ∃ A B, allKeys l = A ++ s₀.constructs.map Prod.fst ++ B ∧
      allKeys (replaceStoreL sid s' l) = A ++ s'.constructs.map Prod.fst ++ B := by
  induction l with
  | nil => simp [List.find?] at h
  | cons s rest ih =>
      by_cases hs : s.id = sid
      · rw [List.find?_cons_of_pos _ (by simpa using hs)] at h
        injection h with h
        subst h
        refine ⟨[], allKeys rest, ?_, ?_⟩
        · simp [allKeys]
        · rw [replaceStoreL]
          simp [hs, allKeys]
      · rw [List.find?_cons_of_neg _ (by simpa using hs)] at h
        obtain ⟨A, B, h1, h2⟩ := ih h
        refine ⟨s.constructs.map Prod.fst ++ A, B, ?_, ?_⟩
        · have : allKeys (s :: rest) = s.constructs.map Prod.fst ++ allKeys rest := by
            simp [allKeys]
          rw [this, h1]
          simp
        · rw [replaceStoreL]
          simp only [hs, if_false]
          have : allKeys (s :: replaceStoreL sid s' rest) =
              s.constructs.map Prod.fst ++ allKeys (replaceStoreL sid s' rest) := by
            simp [allKeys]
          rw [this, h2]
          simp

theorem mem_allKeys_of_mem {l : List StoreState} {s : StoreState}
    {p : Id × StoredCTC} (hs : s ∈ l) (hp : p ∈ s.constructs) :
    p.1 ∈ allKeys l := by
  unfold allKeys
  rw [List.mem_flatten]
  exact ⟨s.constructs.map Prod.fst, List.mem_map_of_mem _ hs, List.mem_map_of_mem _ hp⟩

theorem readAcrossL_none_intro {i : Id} {l : List StoreState}
    (h : ∀ s ∈ l, s.readS i = none) : readAcrossL i l = none := by
  induction l with
  | nil => rfl
  | cons s rest ih =>
      rw [readAcrossL, h s (List.mem_cons_self _ _)]
      exact ih fun s' hs' => h s' (List.mem_cons_of_mem _ hs')

theorem allKeys_mem_elim {k : Id} {l : List StoreState}
    (h : k ∈ allKeys l) : ∃ s ∈ l, k ∈ s.constructs.map Prod.fst := by
  unfold allKeys at h
  rw [List.mem_flatten] at h
  obtain ⟨ks, hks, hk⟩ := h
  rw [List.mem_map] at hks
  obtain ⟨s, hs, rfl⟩ := hks
  exact ⟨s, hs, hk⟩

/-- Point read in one addressed store (the `store.read(id)` calls the
Client makes against a store it holds). -/
def readInStore (st : ClientState) (sid i : Id) : Option StoredCTC :=
  match getStoreC st sid with
  | some s => s.readS i
  | none => none

theorem IdsLt_readS_none {st : ClientState} (hlt : IdsLt st) {s : StoreState}
    (hs : s ∈ st.stores) : s.readS st.nextId = none := by
  apply lookupA_eq_none_of_not_mem
  intro hmem
  rw [List.mem_map] at hmem
  obtain ⟨p, hp, hp1⟩ := hmem
  have h2 := hlt s hs p hp
  rw [hp1] at h2
  exact Nat.lt_irrefl _ h2

theorem IdsLt_readAcross_none {st : ClientState} (hlt : IdsLt st) :
    readAcross st st.nextId = none :=
  readAcrossL_none_intro fun _ hs => IdsLt_readS_none hlt hs

/-! ### Inversion and frame lemmas for `createCTCc` -/

theorem createCTCc_ok_inv {st : ClientState} {sid : Id} {ty : CTCType}
    {d : Option CTCData} {opts : CreateOpts} {st1 : ClientState} {c : StoredCTC}
    (h : createCTCc st sid ty d opts = Except.ok (st1, c)) :
    ∃ s₀, getStoreC st sid = some s₀ ∧
      c = ⟨createSignature st.nextId sid, createMetadata opts st.now, ty, d⟩ ∧
      st1 = { stores := replaceStoreL sid (s₀.setS st.nextId c) st.stores
              nextId := st.nextId + 1
              now := st.now + 1 } := by
  unfold createCTCc at h
  cases hfind : getStoreC st sid with
  | none => rw [hfind] at h; exact absurd h (by simp)
  | some s₀ =>
      rw [hfind] at h
      simp only [storeCreate, StoreState.setS, Except.ok.injEq, Prod.mk.injEq] at h
      obtain ⟨h1, h2⟩ := h
      have hid := getStoreC_id hfind
      refine ⟨s₀, rfl, ?_, ?_⟩
      · rw [← h2, hid]
      · rw [← h1, ← h2]
        rfl

theorem createCTCc_attached {st : ClientState} {sid : Id} {ty : CTCType}
    {d : Option CTCData} {opts : CreateOpts}
    (h : attachedC st sid) :
    ∃ st1 c, createCTCc st sid ty d opts = Except.ok (st1, c) := by
  unfold attachedC at h
  cases hfind : getStoreC st sid with
  | none => rw [hfind] at h; simp at h
  | some s₀ => exact ⟨_, _, by unfold createCTCc; rw [hfind]⟩

theorem createCTCc_storeIds {st : ClientState} {sid : Id} {ty : CTCType}
    {d : Option CTCData} {opts : CreateOpts} {st1 : ClientState} {c : StoredCTC}
    (h : createCTCc st sid ty d opts = Except.ok (st1, c)) :
    st1.stores.map StoreState.id = st.stores.map StoreState.id := by
  obtain ⟨s₀, hfind, hc, hst⟩ := createCTCc_ok_inv h
  subst hst
  exact replaceStoreL_ids _ ((getStoreC_id hfind : s₀.id = sid) :
    (s₀.setS st.nextId c).id = sid)

theorem createCTCc_counters {st : ClientState} {sid : Id} {ty : CTCType}
    {d : Option CTCData} {opts : CreateOpts} {st1 : ClientState} {c : StoredCTC}
    (h : createCTCc st sid ty d opts = Except.ok (st1, c)) :
    st1.nextId = st.nextId + 1 ∧ st1.now = st.now + 1 := by
  obtain ⟨s₀, hfind, hc, hst⟩ := createCTCc_ok_inv h
  subst hst
  exact ⟨rfl, rfl⟩

theorem createCTCc_readAcross_ne {st : ClientState} {sid : Id} {ty : CTCType}
    {d : Option CTCData} {opts : CreateOpts} {st1 : ClientState} {c : StoredCTC}
    (h : createCTCc st sid ty d opts = Except.ok (st1, c)) {i : Id}
    (hi : i ≠ st.nextId) : readAcross st1 i = readAcross st i := by
  obtain ⟨s₀, hfind, hc, hst⟩ := createCTCc_ok_inv h
  subst hst
  exact readAcrossL_replace_frame _ hfind (lookupA_setA_ne _ _ hi)

theorem createCTCc_readAcross_fresh {st : ClientState} {sid : Id} {ty : CTCType}
    {d : Option CTCData} {opts : CreateOpts} {st1 : ClientState} {c : StoredCTC}
    (h : createCTCc st sid ty d opts = Except.ok (st1, c))
    (hlt : IdsLt st) : readAcross st1 st.nextId = some c := by
  obtain ⟨s₀, hfind, hc, hst⟩ := createCTCc_ok_inv h
  subst hst
  exact readAcrossL_replace_hit _ (IdsLt_readAcross_none hlt) hfind
    (lookupA_setA_self _ _ _)

theorem createCTCc_readInStore_fresh {st : ClientState} {sid : Id} {ty : CTCType}
    {d : Option CTCData} {opts : CreateOpts} {st1 : ClientState} {c : StoredCTC}
    (h : createCTCc st sid ty d opts = Except.ok (st1, c)) :
    readInStore st1 sid st.nextId = some c := by
  obtain ⟨s₀, hfind, hc, hst⟩ := createCTCc_ok_inv h
  subst hst
  show (match (replaceStoreL sid (s₀.setS st.nextId c) st.stores).find?
      (fun s => decide (s.id = sid)) with
    | some s => s.readS st.nextId
    | none => none) = some c
  have hid : (s₀.setS st.nextId c).id = sid := (getStoreC_id hfind : s₀.id = sid)
  rw [findStore_replace_self (s₀.setS st.nextId c) st.stores hfind hid]
  exact lookupA_setA_self _ _ _

theorem createCTCc_readInStore_ne {st : ClientState} {sid : Id} {ty : CTCType}
    {d : Option CTCData} {opts : CreateOpts} {st1 : ClientState} {c : StoredCTC}
    (h : createCTCc st sid ty d opts = Except.ok (st1, c)) {i : Id}
    (hi : i ≠ st.nextId) (sid' : Id) :
    readInStore st1 sid' i = readInStore st sid' i := by
  obtain ⟨s₀, hfind, hc, hst⟩ := createCTCc_ok_inv h
  subst hst
  show (match (replaceStoreL sid (s₀.setS st.nextId c) st.stores).find?
      (fun s => decide (s.id = sid')) with
    | some s => s.readS i
    | none => none) =
    (match st.stores.find? (fun s => decide (s.id = sid')) with
    | some s => s.readS i
    | none => none)
  have hid : (s₀.setS st.nextId c).id = sid := (getStoreC_id hfind : s₀.id = sid)
  by_cases hsid : sid' = sid
  · subst hsid
    rw [findStore_replace_self (s₀.setS st.nextId c) st.stores hfind hid]
    have hfind' : st.stores.find? (fun s => decide (s.id = sid')) = some s₀ := hfind
    rw [hfind']
    exact lookupA_setA_ne _ _ hi
  · rw [findStore_replace_ne (s₀.setS st.nextId c) st.stores hid hsid]

theorem createCTCc_WF {st : ClientState} {sid : Id} {ty : CTCType}
    {d : Option CTCData} {opts : CreateOpts} {st1 : ClientState} {c : StoredCTC}
    (h : createCTCc st sid ty d opts = Except.ok (st1, c))
    (hwf : WF st) : WF st1 := by
  obtain ⟨hlt, hkm, hnd⟩ := hwf
  obtain ⟨s₀, hfind, hc, hst⟩ := createCTCc_ok_inv h
  have hs₀mem := getStoreC_mem hfind
  have hs₀read : s₀.readS st.nextId = none := IdsLt_readS_none hlt hs₀mem
  subst hst
  refine ⟨?_, ?_, ?_⟩
  · intro s hs p hp
    show p.1 < st.nextId + 1
    rcases mem_replaceStoreL hs with h1 | h1
    · subst h1
      rcases mem_setA hp with h2 | h2
      · subst h2; exact Nat.lt_succ_self _
      · exact Nat.lt_succ_of_lt (hlt s₀ hs₀mem p h2)
    · exact Nat.lt_succ_of_lt (hlt s h1 p hp)
  · intro s hs p hp
    rcases mem_replaceStoreL hs with h1 | h1
    · subst h1
      rcases mem_setA hp with h2 | h2
      · subst h2
        rw [hc]
        rfl
      · exact hkm s₀ hs₀mem p h2
    · exact hkm s h1 p hp
  · obtain ⟨A, B, hold, hnew⟩ := allKeys_replace (s₀.setS st.nextId c) st.stores hfind
    show (allKeys (replaceStoreL sid (s₀.setS st.nextId c) st.stores)).Nodup
    rw [hnew]
    have hkeys : (s₀.setS st.nextId c).constructs.map Prod.fst =
        s₀.constructs.map Prod.fst ++ [st.nextId] :=
      setA_keys_append _ _ _ hs₀read
    rw [hkeys]
    unfold GlobalNodup at hnd
    rw [hold] at hnd
    have hfresh : st.nextId ∉ A ++ s₀.constructs.map Prod.fst ++ B := by
      intro hmem
      have : st.nextId ∈ allKeys st.stores := by rw [hold]; exact hmem
      obtain ⟨s, hs, hks⟩ := allKeys_mem_elim this
      rw [List.mem_map] at hks
      obtain ⟨p, hp, hp1⟩ := hks
      have h2 := hlt s hs p hp
      rw [hp1] at h2
      exact Nat.lt_irrefl _ h2
    have heq : A ++ (s₀.constructs.map Prod.fst ++ [st.nextId]) ++ B =
        (A ++ s₀.constructs.map Prod.fst) ++ st.nextId :: B := by simp
    rw [heq]
    rw [← List.append_assoc] at heq
    have hperm : List.Perm ((A ++ s₀.constructs.map Prod.fst) ++ st.nextId :: B)
        (st.nextId :: ((A ++ s₀.constructs.map Prod.fst) ++ B)) :=
      List.perm_middle
    rw [List.Perm.nodup_iff hperm]
    refine List.nodup_cons.mpr ⟨?_, by simpa using hnd⟩
    simpa using hfresh

/-! ### Inversion and frame lemmas for `updateInStoreC` and `addIdToArray` -/

/-- The construct written back by a successful store update. -/
def updatedCTC (existing : StoredCTC) (d : Option CTCData) (opts : CreateOpts)
    (now : Nat) : StoredCTC :=
  { existing with
      signature := incrementVersion existing.signature
      metadata := updateMetadata existing.metadata
        (opts.name <|> existing.metadata.name)
        (opts.description <|> existing.metadata.description) now
      data := d }

theorem storeUpdate_some {s : StoreState} {i : Id} {existing : StoredCTC}
    (h : s.readS i = some existing) (d : Option CTCData) (opts : CreateOpts)
    (now : Nat) :
    storeUpdate s i d opts now =
      Except.ok (s.setS i (updatedCTC existing d opts now),
        updatedCTC existing d opts now) := by
  unfold storeUpdate
  rw [h]
  rfl

theorem storeUpdate_none {s : StoreState} {i : Id} (h : s.readS i = none)
    (d : Option CTCData) (opts : CreateOpts) (now : Nat) :
    storeUpdate s i d opts now = Except.error (.constructNotFound i) := by
  unfold storeUpdate
  rw [h]

theorem updateInStoreC_ok_inv {st : ClientState} {sid i : Id}
    {d : Option CTCData} {opts : CreateOpts} {st1 : ClientState} {c' : StoredCTC}
    (h : updateInStoreC st sid i d opts = Except.ok (st1, c')) :
    ∃ s₀ existing, getStoreC st sid = some s₀ ∧ s₀.readS i = some existing ∧
      c' = updatedCTC existing d opts st.now ∧
      st1 = { st with stores := replaceStoreL sid (s₀.setS i c') st.stores
                      now := st.now + 1 } := by
  cases hfind : getStoreC st sid with
  | none => simp [updateInStoreC, hfind] at h
  | some s₀ =>
      cases hread : s₀.readS i with
      | none =>
          simp [updateInStoreC, hfind, storeUpdate_none hread, bind, Except.bind] at h
      | some existing =>
          simp only [updateInStoreC, hfind, storeUpdate_some hread, bind,
            Except.bind, Except.ok.injEq, Prod.mk.injEq] at h
          obtain ⟨h1, h2⟩ := h
          subst h2
          exact ⟨s₀, existing, rfl, hread, rfl, h1.symm⟩

theorem addIdToArray_cases (st : ClientState) (sid cid : Id) (f : ArrayField)
    (newId : Id) :
    addIdToArray st sid cid f newId = st ∨
    ∃ s₀ c, getStoreC st sid = some s₀ ∧ s₀.readS cid = some c ∧
      newId ∉ getArrField c.data f ∧
      addIdToArray st sid cid f newId =
        { st with
            stores := replaceStoreL sid
              (s₀.setS cid (updatedCTC c
                (setArrField c.data f (getArrField c.data f ++ [newId])) {} st.now))
              st.stores
            now := st.now + 1 } := by
  cases hfind : getStoreC st sid with
  | none =>
      refine Or.inl ?_
      simp [addIdToArray, hfind]
  | some s₀ =>
      cases hread : s₀.readS cid with
      | none =>
          refine Or.inl ?_
          simp [addIdToArray, hfind, hread]
      | some c =>
          by_cases hmem : newId ∈ getArrField c.data f
          · refine Or.inl ?_
            simp [addIdToArray, hfind, hread, hmem]
          · refine Or.inr ⟨s₀, c, rfl, hread, hmem, ?_⟩
            simp only [addIdToArray, hfind, hread, hmem, if_false,
              storeUpdate_some hread]

theorem addIdToArray_readAcross_ne (st : ClientState) (sid cid : Id)
    (f : ArrayField) (newId : Id) {j : Id} (hj : j ≠ cid) :
    readAcross (addIdToArray st sid cid f newId) j = readAcross st j := by
  rcases addIdToArray_cases st sid cid f newId with h | ⟨s₀, c, hfind, hread, hmem, h⟩
  · rw [h]
  · rw [h]
    exact readAcrossL_replace_frame _ hfind (lookupA_setA_ne _ _ hj)

theorem addIdToArray_readInStore_ne (st : ClientState) (sid cid : Id)
    (f : ArrayField) (newId : Id) {j : Id} (hj : j ≠ cid) (sid' : Id) :
    readInStore (addIdToArray st sid cid f newId) sid' j = readInStore st sid' j := by
  rcases addIdToArray_cases st sid cid f newId with h | ⟨s₀, c, hfind, hread, hmem, h⟩
  · rw [h]
  · rw [h]
    show (match (replaceStoreL sid (s₀.setS cid _) st.stores).find?
        (fun s => decide (s.id = sid')) with
      | some s => s.readS j
      | none => none) =
      (match st.stores.find? (fun s => decide (s.id = sid')) with
      | some s => s.readS j
      | none => none)
    have hid : (s₀.setS cid (updatedCTC c
        (setArrField c.data f (getArrField c.data f ++ [newId])) {} st.now)).id = sid :=
      (getStoreC_id hfind : s₀.id = sid)
    by_cases hsid : sid' = sid
    · subst hsid
      rw [findStore_replace_self _ st.stores hfind hid]
      have hfind' : st.stores.find? (fun s => decide (s.id = sid')) = some s₀ := hfind
      rw [hfind']
      exact lookupA_setA_ne _ _ hj
    · rw [findStore_replace_ne _ st.stores hid hsid]

theorem addIdToArray_counters (st : ClientState) (sid cid : Id) (f : ArrayField)
    (newId : Id) :
    (addIdToArray st sid cid f newId).nextId = st.nextId := by
  rcases addIdToArray_cases st sid cid f newId with h | ⟨s₀, c, _, _, _, h⟩
  · rw [h]
  · rw [h]

theorem addIdToArray_storeIds (st : ClientState) (sid cid : Id) (f : ArrayField)
    (newId : Id) :
    (addIdToArray st sid cid f newId).stores.map StoreState.id =
      st.stores.map StoreState.id := by
  rcases addIdToArray_cases st sid cid f newId with h | ⟨s₀, c, hfind, hread, hmem, h⟩
  · rw [h]
  · rw [h]
    exact replaceStoreL_ids _ ((getStoreC_id hfind : s₀.id = sid) :
      (s₀.setS cid (updatedCTC c
        (setArrField c.data f (getArrField c.data f ++ [newId])) {} st.now)).id = sid)

theorem addIdToArray_unresolved {st : ClientState} {cid : Id}
    (h : readAcross st cid = none) (sid : Id) (f : ArrayField) (newId : Id) :
    addIdToArray st sid cid f newId = st := by
  cases hfind : getStoreC st sid with
  | none => simp [addIdToArray, hfind]
  | some s₀ =>
      have hnone : s₀.readS cid = none :=
        readAcrossL_none_elim h s₀ (getStoreC_mem hfind)
      simp [addIdToArray, hfind, hnone]

/-- Keys are preserved by a key-hitting store update, so the update frame
preserves well-formedness wholesale. -/
theorem WF_replace_update {st : ClientState} {sid i : Id} {s₀ : StoreState}
    {existing : StoredCTC} {c' : StoredCTC}
    (hfind : getStoreC st sid = some s₀) (hread : s₀.readS i = some existing)
    (hsig : c'.signature.id = existing.signature.id)
    (hwf : WF st) {n' : Nat} :
    WF { st with stores := replaceStoreL sid (s₀.setS i c') st.stores
                 now := n' } := by
  obtain ⟨hlt, hkm, hnd⟩ := hwf
  have hs₀mem := getStoreC_mem hfind
  have hkeys : (s₀.setS i c').constructs.map Prod.fst = s₀.constructs.map Prod.fst :=
    setA_keys _ _ _ (by rw [StoreState.readS] at hread; rw [hread]; rfl)
  have hexmem : (i, existing) ∈ s₀.constructs := lookupA_mem hread
  have hexid : existing.signature.id = i := hkm s₀ hs₀mem (i, existing) hexmem
  refine ⟨?_, ?_, ?_⟩
  · intro s hs p hp
    show p.1 < st.nextId
    rcases mem_replaceStoreL hs with h1 | h1
    · subst h1
      rcases mem_setA hp with h2 | h2
      · subst h2
        exact hlt s₀ hs₀mem (i, existing) hexmem
      · exact hlt s₀ hs₀mem p h2
    · exact hlt s h1 p hp
  · intro s hs p hp
    rcases mem_replaceStoreL hs with h1 | h1
    · subst h1
      rcases mem_setA hp with h2 | h2
      · subst h2
        show c'.signature.id = i
        rw [hsig, hexid]
      · exact hkm s₀ hs₀mem p h2
    · exact hkm s h1 p hp
  · obtain ⟨A, B, hold, hnew⟩ := allKeys_replace (s₀.setS i c') st.stores hfind
    show (allKeys (replaceStoreL sid (s₀.setS i c') st.stores)).Nodup
    rw [hnew, hkeys, ← hold]
    exact hnd

theorem updateInStoreC_WF {st : ClientState} {sid i : Id}
    {d : Option CTCData} {opts : CreateOpts} {st1 : ClientState} {c' : StoredCTC}
    (h : updateInStoreC st sid i d opts = Except.ok (st1, c'))
    (hwf : WF st) : WF st1 := by
  obtain ⟨s₀, existing, hfind, hread, hc, hst⟩ := updateInStoreC_ok_inv h
  subst hst
  exact WF_replace_update hfind hread (by rw [hc]; rfl) hwf

theorem addIdToArray_WF (st : ClientState) (sid cid : Id) (f : ArrayField)
    (newId : Id) (hwf : WF st) : WF (addIdToArray st sid cid f newId) := by
  rcases addIdToArray_cases st sid cid f newId with h | ⟨s₀, c, hfind, hread, hmem, h⟩
  · rw [h]; exact hwf
  · rw [h]
    have hsig : (updatedCTC c (setArrField c.data f (getArrField c.data f ++ [newId]))
        {} st.now).signature.id = c.signature.id := rfl
    exact WF_replace_update hfind hread hsig hwf

theorem updateInStoreC_counters {st : ClientState} {sid i : Id}
    {d : Option CTCData} {opts : CreateOpts} {st1 : ClientState} {c' : StoredCTC}
    (h : updateInStoreC st sid i d opts = Except.ok (st1, c')) :
    st1.nextId = st.nextId ∧ st1.now = st.now + 1 := by
  obtain ⟨s₀, existing, hfind, hread, hc, hst⟩ := updateInStoreC_ok_inv h
  subst hst
  exact ⟨rfl, rfl⟩

theorem updateInStoreC_storeIds {st : ClientState} {sid i : Id}
    {d : Option CTCData} {opts : CreateOpts} {st1 : ClientState} {c' : StoredCTC}
    (h : updateInStoreC st sid i d opts = Except.ok (st1, c')) :
    st1.stores.map StoreState.id = st.stores.map StoreState.id := by
  obtain ⟨s₀, existing, hfind, hread, hc, hst⟩ := updateInStoreC_ok_inv h
  subst hst
  exact replaceStoreL_ids _ ((getStoreC_id hfind : s₀.id = sid) :
    (s₀.setS i c').id = sid)

theorem updateInStoreC_readAcross_ne {st : ClientState} {sid i : Id}
    {d : Option CTCData} {opts : CreateOpts} {st1 : ClientState} {c' : StoredCTC}
    (h : updateInStoreC st sid i d opts = Except.ok (st1, c')) {j : Id}
    (hj : j ≠ i) : readAcross st1 j = readAcross st j := by
  obtain ⟨s₀, existing, hfind, hread, hc, hst⟩ := updateInStoreC_ok_inv h
  subst hst
  exact readAcrossL_replace_frame _ hfind (lookupA_setA_ne _ _ hj)

theorem updateInStoreC_readInStore_self {st : ClientState} {sid i : Id}
    {d : Option CTCData} {opts : CreateOpts} {st1 : ClientState} {c' : StoredCTC}
    (h : updateInStoreC st sid i d opts = Except.ok (st1, c')) :
    readInStore st1 sid i = some c' := by
  obtain ⟨s₀, existing, hfind, hread, hc, hst⟩ := updateInStoreC_ok_inv h
  subst hst
  show (match (replaceStoreL sid (s₀.setS i c') st.stores).find?
      (fun s => decide (s.id = sid)) with
    | some s => s.readS i
    | none => none) = some c'
  have hid : (s₀.setS i c').id = sid := (getStoreC_id hfind : s₀.id = sid)
  rw [findStore_replace_self _ st.stores hfind hid]
  exact lookupA_setA_self _ _ _

theorem updateInStoreC_readInStore_ne {st : ClientState} {sid i : Id}
    {d : Option CTCData} {opts : CreateOpts} {st1 : ClientState} {c' : StoredCTC}
    (h : updateInStoreC st sid i d opts = Except.ok (st1, c')) {j : Id}
    (hj : j ≠ i) (sid' : Id) :
    readInStore st1 sid' j = readInStore st sid' j := by
  obtain ⟨s₀, existing, hfind, hread, hc, hst⟩ := updateInStoreC_ok_inv h
  subst hst
  show (match (replaceStoreL sid (s₀.setS i c') st.stores).find?
      (fun s => decide (s.id = sid')) with
    | some s => s.readS j
    | none => none) =
    (match st.stores.find? (fun s => decide (s.id = sid')) with
    | some s => s.readS j
    | none => none)
  have hid : (s₀.setS i c').id = sid := (getStoreC_id hfind : s₀.id = sid)
  by_cases hsid : sid' = sid
  · subst hsid
    rw [findStore_replace_self _ st.stores hfind hid]
    have hfind' : st.stores.find? (fun s => decide (s.id = sid')) = some s₀ := hfind
    rw [hfind']
    exact lookupA_setA_ne _ _ hj
  · rw [findStore_replace_ne _ st.stores hid hsid]

/-! ### A concrete example federation (used by witnesses and
counterexamples)

One store (id 100) populated through the engine operations themselves:
categories `C = 0` and `D = 1`; objects `x = 2`, `y = 4`, `y2 = 6` in `C`,
`a = 8`, `b = 10`, `b2 = 12` in `D` (identities 3, 5, 7, 9, 11, 13);
morphisms `f1 = 14 : x → y` and `f2 = 15 : x → y2` in `C`,
`g1 = 16 : a → b` and `g2 = 17 : a → b2` in `D`; and an uncategorized
object `z = 18` (identity 19). -/

/-- Run one creation step, keeping the previous state on error. -/
def stepC (prev : ClientState)
    (f : ClientState → Except CtkrError (ClientState × StoredCTC)) : ClientState :=
  match f prev with
  | Except.ok (st', _) => st'
  | Except.error _ => prev

/-- A client with one empty attached store (id 100). -/
def emptyClient : ClientState :=
  attachStoreC { stores := [], nextId := 0, now := 0 } ⟨100, []⟩

/-- The populated example federation. -/
def baseSt : ClientState :=
  let s := emptyClient
  let s := stepC s fun st => createCategoryC st 100 {}
  let s := stepC s fun st => createCategoryC st 100 {}
  let s := stepC s fun st => createObjectC st 100 (some 0) {}
  let s := stepC s fun st => createObjectC st 100 (some 0) {}
  let s := stepC s fun st => createObjectC st 100 (some 0) {}
  let s := stepC s fun st => createObjectC st 100 (some 1) {}
  let s := stepC s fun st => createObjectC st 100 (some 1) {}
  let s := stepC s fun st => createObjectC st 100 (some 1) {}
  let s := stepC s fun st => createMorphismC st 2 4 100 (some 0) {}
  let s := stepC s fun st => createMorphismC st 2 6 100 (some 0) {}
  let s := stepC s fun st => createMorphismC st 8 10 100 (some 1) {}
  let s := stepC s fun st => createMorphismC st 8 12 100 (some 1) {}
  stepC s fun st => createObjectC st 100 none {}

/-! ### Claims C9 and C10: store update contract -/

/-- Iterated updates preserve identity, creation timestamp, and bump the
version once per round. -/
theorem storeUpdateN_spec {s : StoreState} {i : Id} {c : StoredCTC}
    (h : s.readS i = some c) (d : Option CTCData) (opts : CreateOpts) :
    ∀ n now, ∃ s' c', storeUpdateN s i d opts now n = Except.ok s' ∧
      s'.readS i = some c' ∧
      c'.signature.version = c.signature.version + n ∧
      c'.signature.id = c.signature.id ∧
      c'.signature.storeId = c.signature.storeId ∧
      c'.metadata.createdAt = c.metadata.createdAt := by
  intro n
  induction n generalizing s c with
  | zero => exact fun now => ⟨s, c, rfl, h, rfl, rfl, rfl, rfl⟩
  | succ n ih =>
      intro now
      have hu := storeUpdate_some h d opts now
      have hread' : (s.setS i (updatedCTC c d opts now)).readS i =
          some (updatedCTC c d opts now) := lookupA_setA_self _ _ _
      obtain ⟨s', c', h1, h2, h3, h4, h5, h6⟩ := ih hread' (now + 1)
      refine ⟨s', c', ?_, h2, ?_, h4, h5, h6⟩
      · show storeUpdateN s i d opts now (n + 1) = Except.ok s'
        unfold storeUpdateN
        rw [hu]
        exact h1
      · rw [h3]
        show c.signature.version + 1 + n = c.signature.version + (n + 1)
        rw [Nat.add_assoc, Nat.add_comm 1 n]

/-- Claim C9: a successful `Store.update` bumps `signature.version` by
exactly one, keeps `signature.id` and `signature.storeId`, keeps
`metadata.createdAt` and refreshes `metadata.updatedAt` to the update
instant; consequently `n` successive updates starting from a freshly
created construct (version 1, `createdAt` = the creation instant) leave
the version at `1 + n` with `createdAt` still equal to the creation
instant. -/
theorem update_version_metadata_contract (s : StoreState) (i : Id)
    (c : StoredCTC) (d : Option CTCData) (opts : CreateOpts) (now : Nat)
    (h : s.readS i = some c) :
    (∃ s' c', storeUpdate s i d opts now = Except.ok (s', c') ∧
      c'.signature.version = c.signature.version + 1 ∧
      c'.signature.id = c.signature.id ∧
      c'.signature.storeId = c.signature.storeId ∧
      c'.metadata.createdAt = c.metadata.createdAt ∧
      c'.metadata.updatedAt = now ∧
      s'.readS i = some c') ∧
    (∀ (s₀ : StoreState) (ty : CTCType) (d₀ : Option CTCData)
        (opts₀ : CreateOpts) (freshId : Id) (now₀ : Nat) (n now₁ : Nat),
      ∃ s' c', storeUpdateN (storeCreate s₀ ty d₀ opts₀ freshId now₀).1
          freshId d opts now₁ n = Except.ok s' ∧
        s'.readS freshId = some c' ∧
        c'.signature.version = 1 + n ∧
        c'.metadata.createdAt = now₀) := by
  constructor
  · exact ⟨s.setS i (updatedCTC c d opts now), updatedCTC c d opts now,
      storeUpdate_some h d opts now, rfl, rfl, rfl, rfl, rfl,
      lookupA_setA_self _ _ _⟩
  · intro s₀ ty d₀ opts₀ freshId now₀ n now₁
    have hcreate : (storeCreate s₀ ty d₀ opts₀ freshId now₀).1.readS freshId =
        some (storeCreate s₀ ty d₀ opts₀ freshId now₀).2 :=
      lookupA_setA_self _ _ _
    obtain ⟨s', c', h1, h2, h3, h4, h5, h6⟩ :=
      storeUpdateN_spec hcreate d opts n now₁
    exact ⟨s', c', h1, h2, by rw [h3]; rfl, by rw [h6]; rfl⟩

/-- Witness for C9: a concrete one-construct store; one update goes to
version 2 with `createdAt` intact and `updatedAt` refreshed, and three
iterated updates from creation land on version 4. -/
theorem update_version_metadata_contract_witness :
    (StoreState.readS ⟨100, [(5, ⟨⟨5, 100, 1⟩, ⟨none, none, 7, 7⟩, .Object, none⟩)]⟩ 5 =
      some ⟨⟨5, 100, 1⟩, ⟨none, none, 7, 7⟩, .Object, none⟩) ∧
    ((∃ s' c', storeUpdate ⟨100, [(5, ⟨⟨5, 100, 1⟩, ⟨none, none, 7, 7⟩, .Object, none⟩)]⟩
        5 none {} 9 = Except.ok (s', c') ∧
      c'.signature.version = 1 + 1 ∧
      c'.signature.id = 5 ∧
      c'.signature.storeId = 100 ∧
      c'.metadata.createdAt = 7 ∧
      c'.metadata.updatedAt = 9 ∧
      s'.readS 5 = some c') ∧
    (∀ (s₀ : StoreState) (ty : CTCType) (d₀ : Option CTCData)
        (opts₀ : CreateOpts) (freshId : Id) (now₀ : Nat) (n now₁ : Nat),
      ∃ s' c', storeUpdateN (storeCreate s₀ ty d₀ opts₀ freshId now₀).1
          freshId none {} now₁ n = Except.ok s' ∧
        s'.readS freshId = some c' ∧
        c'.signature.version = 1 + n ∧
        c'.metadata.createdAt = now₀)) :=
  ⟨by decide,
   update_version_metadata_contract
     ⟨100, [(5, ⟨⟨5, 100, 1⟩, ⟨none, none, 7, 7⟩, .Object, none⟩)]⟩ 5
     ⟨⟨5, 100, 1⟩, ⟨none, none, 7, 7⟩, .Object, none⟩ none {} 9 (by decide)⟩

/-- Claim C10: `Store.update` on an id that does not resolve throws
`Construct not found: <id>` (it neither returns `undefined` nor creates
the construct — the store is left without the key), while `read` returns
`undefined` and `delete` returns `false` leaving the store unchanged for
the same absent id. -/
theorem update_absent_id_contract (s : StoreState) (i : Id)
    (d : Option CTCData) (opts : CreateOpts) (now : Nat)
    (h : s.readS i = none) :
    storeUpdate s i d opts now = Except.error (.constructNotFound i) ∧
    s.readS i = none ∧
    storeDelete s i = (s, false) := by
  refine ⟨storeUpdate_none h d opts now, h, ?_⟩
  have hl : lookupA i s.constructs = none := h
  have hfilter : s.constructs.filter (fun p => decide (p.1 ≠ i)) = s.constructs := by
    apply List.filter_eq_self.mpr
    intro p hp
    by_cases hpi : p.1 = i
    · exfalso
      have hsome : (lookupA i s.constructs).isSome := by
        rw [lookupA_isSome_iff_mem, ← hpi]
        exact List.mem_map_of_mem _ hp
      rw [hl] at hsome
      simp at hsome
    · simp [hpi]
  simp only [storeDelete, removeA, hl, Option.isSome_none, ne_eq, hfilter]

/-- Witness for C10 at a concrete store and absent id. -/
theorem update_absent_id_contract_witness :
    (StoreState.readS ⟨100, [(5, ⟨⟨5, 100, 1⟩, ⟨none, none, 7, 7⟩, .Object, none⟩)]⟩ 6 = none) ∧
    (storeUpdate ⟨100, [(5, ⟨⟨5, 100, 1⟩, ⟨none, none, 7, 7⟩, .Object, none⟩)]⟩ 6 none {} 9 =
      Except.error (.constructNotFound 6) ∧
     StoreState.readS ⟨100, [(5, ⟨⟨5, 100, 1⟩, ⟨none, none, 7, 7⟩, .Object, none⟩)]⟩ 6 = none ∧
     storeDelete ⟨100, [(5, ⟨⟨5, 100, 1⟩, ⟨none, none, 7, 7⟩, .Object, none⟩)]⟩ 6 =
      (⟨100, [(5, ⟨⟨5, 100, 1⟩, ⟨none, none, 7, 7⟩, .Object, none⟩)]⟩, false)) :=
  ⟨by decide, update_absent_id_contract _ 6 none {} 9 (by decide)⟩

/-! ### Claim C6: mapObject idempotence, last write wins, and the
derived-over-manual preference of getObjectMappings -/

theorem setA_setA_overwrite {α : Type} (k : Id) (v v' : α) (l : List (Id × α)) :
    setA k v' (setA k v l) = setA k v' l := by
  induction l with
  | nil => simp [setA]
  | cons p rest ih =>
      by_cases hp : p.1 = k
      · simp [setA, hp]
      · simp [setA, hp, ih]

theorem mapObjectF_none {b : FBuilder} {x t : Id}
    (hd : lookupA x b.derivedObjectMappings = none) :
    mapObjectF b x t =
      Except.ok { b with manualObjectMappings := setA x t b.manualObjectMappings } := by
  unfold mapObjectF
  rw [hd]

theorem mapObjectF_some_eq {b : FBuilder} {x t : Id} {e : DerivedEntry}
    (hd : lookupA x b.derivedObjectMappings = some e) (he : e.targetId = t) :
    mapObjectF b x t =
      Except.ok { b with manualObjectMappings := setA x t b.manualObjectMappings } := by
  unfold mapObjectF
  rw [hd]
  simp [he]

theorem mapObjectF_some_ne {b : FBuilder} {x t : Id} {e : DerivedEntry}
    (hd : lookupA x b.derivedObjectMappings = some e) (he : e.targetId ≠ t) :
    mapObjectF b x t = Except.error (.mapObjectConflict x t e.targetId) := by
  unfold mapObjectF
  rw [hd]
  simp [he]

theorem overlay_lookup_skip {x : Id} :
    ∀ (ps : List (Id × DerivedEntry)) (acc : List (Id × Id)),
      x ∉ ps.map Prod.fst →
      lookupA x (ps.foldl (fun acc p => setA p.1 p.2.targetId acc) acc) =
        lookupA x acc := by
  intro ps
  induction ps with
  | nil => intro acc _; rfl
  | cons p rest ih =>
      intro acc hx
      simp only [List.map_cons, List.mem_cons] at hx
      push_neg at hx
      rw [List.foldl_cons, ih _ hx.2, lookupA_setA_ne _ _ hx.1]

theorem overlay_lookup {x : Id} :
    ∀ (ps : List (Id × DerivedEntry)) (acc : List (Id × Id)),
      (ps.map Prod.fst).Nodup →
      lookupA x (ps.foldl (fun acc p => setA p.1 p.2.targetId acc) acc) =
        (match lookupA x ps with
         | some e => some e.targetId
         | none => lookupA x acc) := by
  intro ps
  induction ps with
  | nil => intro acc _; rfl
  | cons p rest ih =>
      intro acc hnd
      rw [List.map_cons, List.nodup_cons] at hnd
      rw [List.foldl_cons]
      by_cases hp : p.1 = x
      · subst hp
        rw [overlay_lookup_skip rest _ hnd.1, lookupA_setA_self]
        simp [lookupA]
      · rw [ih _ hnd.2, lookupA_setA_ne _ _ (fun e => hp e.symm)]
        simp [lookupA, hp]

theorem mapObjectF_ok_inv {b b₁ : FBuilder} {x a : Id}
    (h : mapObjectF b x a = Except.ok b₁) :
    b₁ = { b with manualObjectMappings := setA x a b.manualObjectMappings } ∧
    ∀ e, lookupA x b.derivedObjectMappings = some e → e.targetId = a := by
  cases hd : lookupA x b.derivedObjectMappings with
  | some e =>
      by_cases he : e.targetId = a
      · rw [mapObjectF_some_eq hd he] at h
        injection h with h
        refine ⟨h.symm, ?_⟩
        intro e₂ hd₂
        injection hd₂ with hd₂
        rw [← hd₂]
        exact he
      · rw [mapObjectF_some_ne hd he] at h
        exact absurd h (by simp)
  | none =>
      rw [mapObjectF_none hd] at h
      injection h with h
      refine ⟨h.symm, ?_⟩
      intro e₂ hd₂
      exact absurd hd₂ (by simp)

theorem mapObjectF_ok_of {b : FBuilder} {x a : Id}
    (hg : ∀ e, lookupA x b.derivedObjectMappings = some e → e.targetId = a) :
    mapObjectF b x a =
      Except.ok { b with manualObjectMappings := setA x a b.manualObjectMappings } := by
  cases hd : lookupA x b.derivedObjectMappings with
  | some e => exact mapObjectF_some_eq hd (hg e hd)
  | none => exact mapObjectF_none hd

/-- Claim C6: `mapObject` is idempotent (repeating the same call returns
the identical builder), a second call with a different target overwrites
the single entry in place (same key set, hence same size, no duplicate),
and `getObjectMappings` resolves each source to the derived target when
one exists, else the manual target. -/
theorem mapObject_idempotent_overwrite_preference :
    (∀ (b b₁ : FBuilder) (x a : Id), mapObjectF b x a = Except.ok b₁ →
      mapObjectF b₁ x a = Except.ok b₁) ∧
    (∀ (b : FBuilder) (x a t : Id),
      lookupA x b.derivedObjectMappings = none →
      ∃ b₁ b₂, mapObjectF b x a = Except.ok b₁ ∧
        mapObjectF b₁ x t = Except.ok b₂ ∧
        lookupA x b₂.manualObjectMappings = some t ∧
        b₂.manualObjectMappings.map Prod.fst = b₁.manualObjectMappings.map Prod.fst ∧
        b₂.manualObjectMappings.length = b₁.manualObjectMappings.length) ∧
    (∀ (b : FBuilder) (x : Id), (b.derivedObjectMappings.map Prod.fst).Nodup →
      lookupA x (objectMappingsF b) =
        (match lookupA x b.derivedObjectMappings with
         | some e => some e.targetId
         | none => lookupA x b.manualObjectMappings)) := by
  refine ⟨?_, ?_, ?_⟩
  · intro b b₁ x a h
    obtain ⟨hb, hg⟩ := mapObjectF_ok_inv h
    subst hb
    have h2 := mapObjectF_ok_of (b := { b with manualObjectMappings := setA x a b.manualObjectMappings }) (x := x) (a := a) hg
    rw [h2]
    simp [setA_setA_overwrite]
  · intro b x a t hd
    have hd' : lookupA x (FBuilder.derivedObjectMappings { b with manualObjectMappings := setA x a b.manualObjectMappings }) = none := hd
    refine ⟨{ b with manualObjectMappings := setA x a b.manualObjectMappings },
      { b with manualObjectMappings := setA x t (setA x a b.manualObjectMappings) },
      mapObjectF_none hd, mapObjectF_none hd', lookupA_setA_self _ _ _, ?_, ?_⟩
    · show (setA x t (setA x a b.manualObjectMappings)).map Prod.fst =
        (setA x a b.manualObjectMappings).map Prod.fst
      exact setA_keys _ _ _ (by rw [lookupA_setA_self]; rfl)
    · have hk : (setA x t (setA x a b.manualObjectMappings)).map Prod.fst =
          (setA x a b.manualObjectMappings).map Prod.fst :=
        setA_keys _ _ _ (by rw [lookupA_setA_self]; rfl)
      have := congrArg List.length hk
      simpa using this
  · intro b x hnd
    exact overlay_lookup _ _ hnd

/-- Witness for C6 on a concrete builder: a repeated identical call, an
overwriting call, and the derived-over-manual preference, all at
concrete inputs. -/
theorem mapObject_idempotent_overwrite_preference_witness :
    (mapObjectF { manualObjectMappings := [(2, 5)] } 2 5 =
        Except.ok { manualObjectMappings := [(2, 5)] } ∧
     lookupA 7 (FBuilder.derivedObjectMappings { manualObjectMappings := [(2, 5)] }) = none ∧
     (List.map Prod.fst (FBuilder.derivedObjectMappings
        { manualObjectMappings := [(1, 9), (2, 5)]
          derivedObjectMappings := [(1, ⟨4, 30⟩)] })).Nodup) ∧
    (mapObjectF { manualObjectMappings := [(2, 5)] } 2 5 =
        Except.ok { manualObjectMappings := [(2, 5)] } →
      mapObjectF { manualObjectMappings := [(2, 5)] } 2 5 =
        Except.ok { manualObjectMappings := [(2, 5)] }) ∧
    (∃ b₁ b₂,
      mapObjectF { manualObjectMappings := [(2, 5)] } 7 3 = Except.ok b₁ ∧
      mapObjectF b₁ 7 4 = Except.ok b₂ ∧
      lookupA 7 b₂.manualObjectMappings = some 4 ∧
      b₂.manualObjectMappings.map Prod.fst = b₁.manualObjectMappings.map Prod.fst ∧
      b₂.manualObjectMappings.length = b₁.manualObjectMappings.length) ∧
    (lookupA 1 (objectMappingsF
        { manualObjectMappings := [(1, 9), (2, 5)]
          derivedObjectMappings := [(1, ⟨4, 30⟩)] }) =
      (match lookupA 1 ([(1, ⟨4, 30⟩)] : List (Id × DerivedEntry)) with
       | some e => some e.targetId
       | none => lookupA 1 [(1, 9), (2, 5)])) :=
  ⟨⟨by decide, by decide, by decide⟩,
   fun h => mapObject_idempotent_overwrite_preference.1
     { manualObjectMappings := [(2, 5)] }
     { manualObjectMappings := [(2, 5)] } 2 5 h,
   mapObject_idempotent_overwrite_preference.2.1
     { manualObjectMappings := [(2, 5)] } 7 3 4 (by decide),
   mapObject_idempotent_overwrite_preference.2.2
     { manualObjectMappings := [(1, 9), (2, 5)]
       derivedObjectMappings := [(1, ⟨4, 30⟩)] } 1 (by decide)⟩

/-! ### Claim C4: mapObject fail-fast versus lazy derivation

The fail-fast check in `mapObject` consults only the derived map as it
was last computed. `mapMorphism` records the morphism mapping without
recomputing derivation (it is recomputed lazily on the next
query/validate/build), so `mapMorphism(f, g)` immediately followed by
`mapObject` on an endpoint of `f` with an incompatible target does NOT
throw — the conflict is only reported by the next `validate()`. -/

/-- Test for a successful (non-throwing) call. -/
def isOkE {ε α : Type} : Except ε α → Bool
  | Except.ok _ => true
  | Except.error _ => false

/-- The example builder for the C4 counterexample: store 100, source
category `C = 0`, target category `D = 1`. -/
def b0C4 : FBuilder :=
  { store := some 100, sourceCat := some 0, targetCat := some 1 }

/-- Extract the validation result. -/
def validOf (r : Except CtkrError (VResult × FBuilder)) : Option Bool :=
  match r with
  | Except.ok (v, _) => some v.valid
  | Except.error _ => none

/-- Counterexample to claim C4 as stated: in the example federation,
morphism `14 : 2 → 4` is declared mapped to `16 : 8 → 10`; `2` is an
endpoint of `14`, and target `10` is incompatible (a morphism-derived
mapping would force `2 ↦ 8`). The claim demands that
`mapObject(2, 10)` throw without waiting for validate, but the call
succeeds and records the manual mapping, because `mapMorphism` left the
derived map empty; the incompatibility is only caught by the next
`validate()`, which returns `valid = false`. -/
theorem mapObject_after_mapMorphism_does_not_throw :
    (getMorphismData (Option.getD (readAcross baseSt 14)
        ⟨⟨0, 0, 0⟩, ⟨none, none, 0, 0⟩, .Object, none⟩) =
      some ⟨2, 4, some 0, none⟩) ∧
    (getMorphismData (Option.getD (readAcross baseSt 16)
        ⟨⟨0, 0, 0⟩, ⟨none, none, 0, 0⟩, .Object, none⟩) =
      some ⟨8, 10, some 1, none⟩) ∧
    (10 : Id) ≠ 8 ∧
    (mapMorphismF b0C4 14 16).derivedObjectMappings = [] ∧
    mapObjectF (mapMorphismF b0C4 14 16) 2 10 =
      Except.ok { mapMorphismF b0C4 14 16 with
        manualObjectMappings := [(2, 10)] } ∧
    validOf (validateF (mapObjectF (mapMorphismF b0C4 14 16) 2 10
        |>.toOption.getD b0C4) baseSt) = some false := by
  refine ⟨by decide, by decide, by decide, by decide, by decide, ?_⟩
  decide

/-- Claim C4 (amended): `mapObject(source, target)` throws exactly when
the derived map as last computed contains a different target for
`source`; otherwise it records the manual mapping and returns the
builder. `mapMorphism` does not recompute the derived map, so a
`mapObject` call that conflicts only with not-yet-derived morphism
mappings succeeds (the conflict surfaces at the next validate). -/
theorem mapObject_fail_fast_contract :
    (∀ (b : FBuilder) (s t : Id) (e : DerivedEntry),
      lookupA s b.derivedObjectMappings = some e → e.targetId ≠ t →
      mapObjectF b s t = Except.error (.mapObjectConflict s t e.targetId)) ∧
    (∀ (b : FBuilder) (s t : Id),
      (∀ e, lookupA s b.derivedObjectMappings = some e → e.targetId = t) →
      mapObjectF b s t =
        Except.ok { b with manualObjectMappings := setA s t b.manualObjectMappings }) ∧
    (∀ (b : FBuilder) (f g : Id),
      (mapMorphismF b f g).derivedObjectMappings = b.derivedObjectMappings) ∧
    (∀ (b : FBuilder) (f g s t : Id),
      b.derivedObjectMappings = [] →
      isOkE (mapObjectF (mapMorphismF b f g) s t) = true) := by
  refine ⟨?_, ?_, ?_, ?_⟩
  · intro b s t e hd he
    exact mapObjectF_some_ne hd he
  · intro b s t hg
    exact mapObjectF_ok_of hg
  · intro b f g
    rfl
  · intro b f g s t hd
    have hd' : lookupA s (mapMorphismF b f g).derivedObjectMappings = none := by
      show lookupA s b.derivedObjectMappings = none
      rw [hd]
      rfl
    rw [mapObjectF_none hd']
    rfl

/-- Witness for C4 (amended) at concrete inputs. -/
theorem mapObject_fail_fast_contract_witness :
    (lookupA 2 (FBuilder.derivedObjectMappings
        { derivedObjectMappings := [(2, ⟨8, 14⟩)] }) = some ⟨8, 14⟩ ∧
     (DerivedEntry.targetId ⟨8, 14⟩) ≠ 10 ∧
     FBuilder.derivedObjectMappings b0C4 = []) ∧
    (mapObjectF { derivedObjectMappings := [(2, ⟨8, 14⟩)] } 2 10 =
      Except.error (.mapObjectConflict 2 10 8)) ∧
    ((mapMorphismF b0C4 14 16).derivedObjectMappings =
      FBuilder.derivedObjectMappings b0C4) ∧
    (isOkE (mapObjectF (mapMorphismF b0C4 14 16) 2 10) = true) :=
  ⟨⟨by decide, by decide, by decide⟩,
   mapObject_fail_fast_contract.1
     { derivedObjectMappings := [(2, ⟨8, 14⟩)] } 2 10 ⟨8, 14⟩ (by decide) (by decide),
   mapObject_fail_fast_contract.2.2.1 b0C4 14 16,
   mapObject_fail_fast_contract.2.2.2 b0C4 14 16 2 10 (by decide)⟩

/-! ### Claim C2: validate error contract and build failure -/

/-- Claim C2: `validate()` reports `valid = false` with a non-empty error
list exactly when a required builder field (store, source category,
target category) is unset or derivation collects a conflict; `valid` is
false exactly when `errors` is non-empty; and `build()` on an invalid
builder throws one error carrying the entire collected error list (the
throw happens before anything is persisted: no state is produced). -/
theorem validate_errors_and_build_throws (b : FBuilder) (st : ClientState)
    (r : VResult) (b' : FBuilder)
    (h : validateF b st = Except.ok (r, b')) :
    (r.valid = true ↔ r.errors = []) ∧
    (r.errors ≠ [] ↔ (missingFieldsF b ≠ [] ∨
      ∃ b₁ cs, computeDerivedMappings b st = Except.ok (b₁, cs) ∧ cs ≠ [])) ∧
    (r.valid = false → buildF b st = Except.error (.cannotBuildFunctor r.errors)) := by
  by_cases hm : (missingFieldsF b).isEmpty
  · cases hcd : computeDerivedMappings b st with
    | error e =>
        have hval : validateF b st = Except.error e := by
          rw [validateF, if_pos hm, hcd]
          rfl
        rw [hval] at h
        exact absurd h (by simp)
    | ok p =>
        obtain ⟨b₁, cs⟩ := p
        by_cases hcs : cs.isEmpty
        · have hcseq : cs = [] := List.isEmpty_iff.mp hcs
          subst hcseq
          have hval : validateF b st = Except.ok (⟨true, []⟩, b₁) := by
            rw [validateF, if_pos hm, hcd]
            rfl
          rw [hval] at h
          injection h with h
          injection h with h1 h2
          subst h2
          subst h1
          refine ⟨by simp, ?_, ?_⟩
          · constructor
            · intro hc
              simp at hc
            · intro hc
              rcases hc with hc | ⟨b₂, cs₂, hcd₂, hcs₂⟩
              · exact absurd (List.isEmpty_iff.mp hm) hc
              · injection hcd₂ with hcd₂
                injection hcd₂ with hb₂ hcseq₂
                exact absurd hcseq₂.symm hcs₂
          · intro hv
            simp at hv
        · have hcsne : cs ≠ [] := by
            intro hc
            rw [hc] at hcs
            simp at hcs
          have hval : validateF b st =
              Except.ok (⟨false, cs.map BuilderMsg.conflict⟩, b₁) := by
            rw [validateF, if_pos hm, hcd]
            simp [bind, Except.bind, hcs]
          rw [hval] at h
          injection h with h
          injection h with h1 h2
          subst h2
          subst h1
          refine ⟨by simp [hcsne], ?_, ?_⟩
          · constructor
            · intro _
              exact Or.inr ⟨b₁, cs, rfl, hcsne⟩
            · intro _
              simp [hcsne]
          · intro hv
            simp [buildF, hval, bind, Except.bind]
  · have hval : validateF b st = Except.ok (⟨false, missingFieldsF b⟩, b) := by
      rw [validateF, if_neg hm]
    rw [hval] at h
    injection h with h
    injection h with h1 h2
    subst h2
    subst h1
    have hmne : missingFieldsF b ≠ [] := by
      intro hc
      rw [hc] at hm
      simp at hm
    refine ⟨by simp [hmne], ?_, ?_⟩
    · constructor
      · intro _
        exact Or.inl hmne
      · intro _
        simp [hmne]
    · intro hv
      simp [buildF, hval, bind, Except.bind]

/-- Witness for C2 at a concrete unconfigured builder against the example
federation: validate reports all three missing fields and build throws
with that same list. -/
theorem validate_errors_and_build_throws_witness :
    (validateF {} baseSt = Except.ok
      (⟨false, [.missingStore, .missingSourceCategory, .missingTargetCategory]⟩, {})) ∧
    ((VResult.valid ⟨false, [.missingStore, .missingSourceCategory, .missingTargetCategory]⟩ = true ↔
      VResult.errors ⟨false, [.missingStore, .missingSourceCategory, .missingTargetCategory]⟩ = []) ∧
     (VResult.errors ⟨false, [.missingStore, .missingSourceCategory, .missingTargetCategory]⟩ ≠ [] ↔
      (missingFieldsF {} ≠ [] ∨
       ∃ b₁ cs, computeDerivedMappings {} baseSt = Except.ok (b₁, cs) ∧ cs ≠ [])) ∧
     (VResult.valid ⟨false, [.missingStore, .missingSourceCategory, .missingTargetCategory]⟩ = false →
      buildF {} baseSt = Except.error (.cannotBuildFunctor
        (VResult.errors ⟨false, [.missingStore, .missingSourceCategory, .missingTargetCategory]⟩)))) :=
  ⟨by decide,
   validate_errors_and_build_throws {} baseSt
     ⟨false, [.missingStore, .missingSourceCategory, .missingTargetCategory]⟩ {}
     (by decide)⟩

/-! ### Claim C1: derived object mappings

`computeDerivedMappings` processes each declared morphism mapping in
declaration order, proposing its source endpoints first and its target
endpoints second. Projected onto one object, the derived map evolves as a
fold: the first proposal fixes the target; a later different-target
proposal records a conflict and leaves the entry alone, while a later
same-target proposal overwrites `fromMorphismId` with the later morphism.
So the entry's `targetId` is the first proposed target, but its
`fromMorphismId` is the last morphism that proposed that same target —
which falsifies the claim as frozen when a later mapping re-proposes an
already-established target. -/

/-- One endpoint proposal of the derivation: object `obj` is proposed to
map to `target`, derived from morphism mapping `fromMor`. -/
structure Proposal where
  obj : Id
  target : Id
  fromMor : Id
deriving DecidableEq

/-- The two proposals one resolvable morphism mapping contributes (source
endpoint first), or none when it does not resolve in the cached listings. -/
def proposalsOfOne (srcMors tgtMors : List StoredCTC) (mm : Id × Id) :
    List Proposal :=
  match findById srcMors mm.1, findById tgtMors mm.2 with
  | some srcMor, some tgtMor =>
      match getMorphismData srcMor, getMorphismData tgtMor with
      | some srcMorData, some tgtMorData =>
          [⟨srcMorData.sourceId, tgtMorData.sourceId, mm.1⟩,
           ⟨srcMorData.targetId, tgtMorData.targetId, mm.1⟩]
      | _, _ => []
  | _, _ => []

/-- All endpoint proposals of a run of `computeDerivedMappings`, in
processing order. -/
def proposalsOf (srcMors tgtMors : List StoredCTC) (mms : List (Id × Id)) :
    List Proposal :=
  (mms.map (proposalsOfOne srcMors tgtMors)).flatten

/-- The derived-map component of one proposal step. -/
def propStepD (dm : List (Id × DerivedEntry)) (p : Proposal) :
    List (Id × DerivedEntry) :=
  match lookupA p.obj dm with
  | some existing =>
      if existing.targetId ≠ p.target then dm
      else setA p.obj ⟨p.target, p.fromMor⟩ dm
  | none => setA p.obj ⟨p.target, p.fromMor⟩ dm

theorem deriveStep_fst (acc : List (Id × DerivedEntry) × List Conflict)
    (o t m : Id) : (deriveStep acc o t m).1 = propStepD acc.1 ⟨o, t, m⟩ := by
  unfold deriveStep propStepD
  cases lookupA o acc.1 with
  | some e =>
      by_cases he : e.targetId ≠ t
      · simp [he]
      · simp [he]
  | none => rfl

theorem deriveMapping_fst (srcMors tgtMors : List StoredCTC)
    (acc : List (Id × DerivedEntry) × List Conflict) (mm : Id × Id) :
    (deriveMapping srcMors tgtMors acc mm).1 =
      (proposalsOfOne srcMors tgtMors mm).foldl propStepD acc.1 := by
  cases hf1 : findById srcMors mm.1 with
  | none => simp [deriveMapping, proposalsOfOne, hf1]
  | some srcMor =>
      cases hf2 : findById tgtMors mm.2 with
      | none => simp [deriveMapping, proposalsOfOne, hf1, hf2]
      | some tgtMor =>
          cases hd1 : getMorphismData srcMor with
          | none =>
              cases hd2 : getMorphismData tgtMor with
              | none => simp [deriveMapping, proposalsOfOne, hf1, hf2, hd1, hd2]
              | some tmd => simp [deriveMapping, proposalsOfOne, hf1, hf2, hd1, hd2]
          | some smd =>
              cases hd2 : getMorphismData tgtMor with
              | none => simp [deriveMapping, proposalsOfOne, hf1, hf2, hd1, hd2]
              | some tmd =>
                  simp only [deriveMapping, proposalsOfOne, hf1, hf2, hd1, hd2,
                    List.foldl_cons, List.foldl_nil]
                  rw [deriveStep_fst, deriveStep_fst]

theorem deriveAll_fst (srcMors tgtMors : List StoredCTC)
    (mms : List (Id × Id)) :
    (deriveAll srcMors tgtMors mms).1 =
      (proposalsOf srcMors tgtMors mms).foldl propStepD [] := by
  unfold deriveAll proposalsOf
  have hgen : ∀ (acc : List (Id × DerivedEntry) × List Conflict),
      (mms.foldl (deriveMapping srcMors tgtMors) acc).1 =
        ((mms.map (proposalsOfOne srcMors tgtMors)).flatten).foldl propStepD acc.1 := by
    intro acc
    induction mms generalizing acc with
    | nil => rfl
    | cons mm rest ih =>
        rw [List.foldl_cons, List.map_cons, List.flatten_cons, List.foldl_append]
        rw [ih, deriveMapping_fst]
  exact hgen ([], [])

/-- The per-key evolution of a derived entry under the proposal fold. -/
def keyStep (cur : Option DerivedEntry) (q : Id × Id) : Option DerivedEntry :=
  match cur with
  | some e => if e.targetId ≠ q.1 then cur else some ⟨q.1, q.2⟩
  | none => some ⟨q.1, q.2⟩

/-- The proposals relevant to one object, as (target, fromMorphism) pairs. -/
def proposalsFor (x : Id) (ps : List Proposal) : List (Id × Id) :=
  ps.filterMap fun p => if p.obj = x then some (p.target, p.fromMor) else none

theorem lookupA_propStepD_ne {x : Id} {p : Proposal}
    (dm : List (Id × DerivedEntry)) (hne : p.obj ≠ x) :
    lookupA x (propStepD dm p) = lookupA x dm := by
  cases hcur : lookupA p.obj dm with
  | some e =>
      by_cases he : e.targetId ≠ p.target
      · simp [propStepD, hcur, he]
      · simp only [propStepD, hcur, he, if_false]
        exact lookupA_setA_ne _ _ fun e₂ => hne e₂.symm
  | none =>
      simp only [propStepD, hcur]
      exact lookupA_setA_ne _ _ fun e₂ => hne e₂.symm

theorem lookupA_propStepD_eq {x : Id} {p : Proposal}
    (dm : List (Id × DerivedEntry)) (heq : p.obj = x) :
    lookupA x (propStepD dm p) = keyStep (lookupA x dm) (p.target, p.fromMor) := by
  subst heq
  cases hcur : lookupA p.obj dm with
  | some e =>
      by_cases he : e.targetId ≠ p.target
      · simp [propStepD, keyStep, hcur, he]
      · simp only [propStepD, keyStep, hcur, he, if_false]
        exact lookupA_setA_self _ _ _
  | none =>
      simp only [propStepD, keyStep, hcur]
      exact lookupA_setA_self _ _ _

theorem lookupA_foldl_propStepD (x : Id) :
    ∀ (ps : List Proposal) (dm : List (Id × DerivedEntry)),
      lookupA x (ps.foldl propStepD dm) =
        (proposalsFor x ps).foldl keyStep (lookupA x dm) := by
  intro ps
  induction ps with
  | nil => intro dm; rfl
  | cons p rest ih =>
      intro dm
      rw [List.foldl_cons]
      by_cases hp : p.obj = x
      · rw [ih, lookupA_propStepD_eq dm hp]
        unfold proposalsFor
        rw [List.filterMap_cons]
        simp only [hp, if_true]
        rfl
      · rw [ih, lookupA_propStepD_ne dm hp]
        unfold proposalsFor
        rw [List.filterMap_cons]
        simp only [hp, if_false]

theorem keyStep_stay {a : Id} :
    ∀ (l : List (Id × Id)) (m : Id),
      ∃ m', l.foldl keyStep (some ⟨a, m⟩) = some ⟨a, m'⟩ := by
  intro l
  induction l with
  | nil => intro m; exact ⟨m, rfl⟩
  | cons q rest ih =>
      intro m
      rw [List.foldl_cons]
      by_cases hq : q.1 = a
      · have hstep : keyStep (some ⟨a, m⟩) q = some ⟨a, q.2⟩ := by
          unfold keyStep
          rw [hq]
          simp
        rw [hstep]
        exact ih q.2
      · have hstep : keyStep (some ⟨a, m⟩) q = some ⟨a, m⟩ := by
          unfold keyStep
          simp only []
          rw [if_pos]
          exact fun e => hq e.symm
        rw [hstep]
        exact ih m

theorem keyStep_frozen {a f : Id} :
    ∀ (l : List (Id × Id)), (∀ q ∈ l, q.1 ≠ a) →
      l.foldl keyStep (some ⟨a, f⟩) = some ⟨a, f⟩ := by
  intro l
  induction l with
  | nil => intro _; rfl
  | cons q rest ih =>
      intro hq
      rw [List.foldl_cons]
      have hq1 : q.1 ≠ a := hq q (List.mem_cons_self _ _)
      have hstep : keyStep (some ⟨a, f⟩) q = some ⟨a, f⟩ := by
        unfold keyStep
        simp only []
        rw [if_pos]
        exact fun e => hq1 e.symm
      rw [hstep]
      exact ih fun e he => hq e (List.mem_cons_of_mem _ he)

theorem keyStep_middle {a f : Id} (cur : Option DerivedEntry)
    (hcur : cur = none ∨ ∃ m, cur = some ⟨a, m⟩) :
    keyStep cur (a, f) = some ⟨a, f⟩ := by
  rcases hcur with h | ⟨m, h⟩
  · rw [h]
    rfl
  · rw [h]
    unfold keyStep
    simp

theorem keyStep_pre_none_or_a {a : Id} :
    ∀ (pre : List (Id × Id)), (∀ q ∈ pre, q.1 = a) →
      pre.foldl keyStep none = none ∨
        ∃ m, pre.foldl keyStep none = some ⟨a, m⟩ := by
  intro pre
  cases pre with
  | nil => intro _; exact Or.inl rfl
  | cons q rest =>
      intro hq
      rw [List.foldl_cons]
      have hq1 : q.1 = a := hq q (List.mem_cons_self _ _)
      have hstart : keyStep none q = some ⟨a, q.2⟩ := by
        unfold keyStep
        rw [hq1]
      rw [hstart]
      exact Or.inr (keyStep_stay rest q.2)

theorem keyStep_split {a f : Id} (pre post : List (Id × Id))
    (hpre : ∀ q ∈ pre, q.1 = a) :
    (∃ m, (pre ++ (a, f) :: post).foldl keyStep none = some ⟨a, m⟩) ∧
    ((∀ q ∈ post, q.1 ≠ a) →
      (pre ++ (a, f) :: post).foldl keyStep none = some ⟨a, f⟩) := by
  rw [List.foldl_append, List.foldl_cons]
  have hmid : keyStep (pre.foldl keyStep none) (a, f) = some ⟨a, f⟩ :=
    keyStep_middle _ (keyStep_pre_none_or_a pre hpre)
  rw [hmid]
  exact ⟨keyStep_stay post f, fun hpost => keyStep_frozen post hpost⟩

theorem ensureLoaded_fields {b : FBuilder} {st : ClientState} {b1 : FBuilder}
    (h : ensureLoaded b st = Except.ok b1) :
    b1.morphismMappings = b.morphismMappings ∧
    b1.manualObjectMappings = b.manualObjectMappings ∧
    b1.store = b.store ∧ b1.sourceCat = b.sourceCat ∧ b1.targetCat = b.targetCat ∧
    b1.derivedObjectMappings = b.derivedObjectMappings := by
  cases hsc : b.sourceCat with
  | none => simp [ensureLoaded, hsc] at h
  | some scId =>
      cases htc : b.targetCat with
      | none => simp [ensureLoaded, hsc, htc] at h
      | some tcId =>
          cases hc1 : b.sourceCategoryData with
          | none =>
              cases hc2 : b.targetCategoryData with
              | none =>
                  simp only [ensureLoaded, hsc, htc, hc1, hc2, Except.ok.injEq] at h
                  subst h
                  exact ⟨rfl, rfl, rfl, rfl, rfl, rfl⟩
              | some c2 =>
                  simp only [ensureLoaded, hsc, htc, hc1, hc2, Except.ok.injEq] at h
                  subst h
                  exact ⟨rfl, rfl, rfl, rfl, rfl, rfl⟩
          | some c1 =>
              cases hc2 : b.targetCategoryData with
              | none =>
                  simp only [ensureLoaded, hsc, htc, hc1, hc2, Except.ok.injEq] at h
                  subst h
                  exact ⟨rfl, rfl, rfl, rfl, rfl, rfl⟩
              | some c2 =>
                  simp only [ensureLoaded, hsc, htc, hc1, hc2, Except.ok.injEq] at h
                  subst h
                  exact ⟨rfl, rfl, rfl, hsc, htc, rfl⟩

theorem computeDerivedMappings_ok_inv {b : FBuilder} {st : ClientState}
    {b₁ : FBuilder} {cs : List Conflict}
    (h : computeDerivedMappings b st = Except.ok (b₁, cs)) :
    ∃ bE sc tc, ensureLoaded b st = Except.ok bE ∧
      bE.sourceCategoryData = some sc ∧ bE.targetCategoryData = some tc ∧
      b₁.derivedObjectMappings =
        (deriveAll sc.morphisms tc.morphisms bE.morphismMappings).1 ∧
      b₁.sourceCategoryData = some sc ∧ b₁.targetCategoryData = some tc ∧
      b₁.morphismMappings = bE.morphismMappings ∧
      b₁.manualObjectMappings = bE.manualObjectMappings ∧
      b₁.store = bE.store ∧ b₁.sourceCat = bE.sourceCat ∧
      b₁.targetCat = bE.targetCat := by
  cases hens : ensureLoaded b st with
  | error e => simp [computeDerivedMappings, hens, bind, Except.bind] at h
  | ok bE =>
      cases hbsc : bE.sourceCategoryData with
      | none => simp [computeDerivedMappings, hens, bind, Except.bind, hbsc] at h
      | some sc =>
          cases hbtc : bE.targetCategoryData with
          | none => simp [computeDerivedMappings, hens, bind, Except.bind, hbsc, hbtc] at h
          | some tc =>
              simp only [computeDerivedMappings, hens, bind, Except.bind, hbsc, hbtc,
                Except.ok.injEq, Prod.mk.injEq] at h
              obtain ⟨h1, h2⟩ := h
              refine ⟨bE, sc, tc, rfl, hbsc, hbtc, ?_, ?_, ?_, ?_, ?_, ?_, ?_, ?_⟩ <;>
                rw [← h1]

theorem validateF_ok_builder {b : FBuilder} {st : ClientState} {r : VResult}
    {b' : FBuilder} (hmiss : missingFieldsF b = [])
    (h : validateF b st = Except.ok (r, b')) :
    ∃ cs, computeDerivedMappings b st = Except.ok (b', cs) := by
  have hm : (missingFieldsF b).isEmpty := by rw [hmiss]; rfl
  rw [validateF, if_pos hm] at h
  cases hcd : computeDerivedMappings b st with
  | error e =>
      rw [hcd] at h
      exact absurd h (by simp [bind, Except.bind])
  | ok p =>
      obtain ⟨b₁, cs⟩ := p
      rw [hcd] at h
      simp only [bind, Except.bind] at h
      by_cases hcs : cs.isEmpty = true
      · rw [if_pos hcs] at h
        injection h with h
        injection h with h1 h2
        exact ⟨cs, by rw [h2]⟩
      · rw [if_neg hcs] at h
        injection h with h
        injection h with h1 h2
        exact ⟨cs, by rw [h2]⟩

/-- Claim C1 (amended): after derivation is recomputed by `validate()`,
consider the ordered endpoint proposals made while processing the
declared morphism mappings (each resolvable mapping `f ↦ g`, with
`f : x → y` listed in the source category and `g : a → b` listed in the
target category, proposes `x ↦ a` and then `y ↦ b`, tagged `f`). If a
proposal `x ↦ a` tagged `f` occurs and every earlier proposal for `x`
proposed the same target `a`, then `getDerivedObjectMappings()` contains
an entry `x ↦ {targetId := a}`; its `fromMorphismId` is `f` provided
additionally no later proposal re-proposes target `a` for `x` (a later
equal proposal overwrites the tag with the later morphism id — this is
the correction to the claim as frozen). -/
theorem derived_mapping_from_morphism (b : FBuilder) (st : ClientState)
    (r : VResult) (b' : FBuilder) (sc tc : CatCache) (x a f : Id)
    (pre post : List (Id × Id))
    (hmiss : missingFieldsF b = [])
    (h : validateF b st = Except.ok (r, b'))
    (hsc : b'.sourceCategoryData = some sc)
    (htc : b'.targetCategoryData = some tc)
    (hsplit : proposalsFor x
        (proposalsOf sc.morphisms tc.morphisms b.morphismMappings) =
      pre ++ (a, f) :: post)
    (hpre : ∀ q ∈ pre, q.1 = a) :
    (∃ m, lookupA x b'.derivedObjectMappings = some ⟨a, m⟩) ∧
    ((∀ q ∈ post, q.1 ≠ a) →
      lookupA x b'.derivedObjectMappings = some ⟨a, f⟩) := by
  obtain ⟨cs, hcd⟩ := validateF_ok_builder hmiss h
  obtain ⟨bE, scE, tcE, hens, hbsc, hbtc, hder₀, hsc', htc', hmm', hman', hst',
    hscat', htcat'⟩ := computeDerivedMappings_ok_inv hcd
  obtain ⟨hmm, hman, hst, hscat, htcat, hderE⟩ := ensureLoaded_fields hens
  have hscE : scE = sc := by
    rw [hsc'] at hsc
    injection hsc
  have htcE : tcE = tc := by
    rw [htc'] at htc
    injection htc
  subst hscE
  subst htcE
  have hder : b'.derivedObjectMappings =
      (deriveAll scE.morphisms tcE.morphisms b.morphismMappings).1 := by
    rw [hder₀, hmm]
  have hkey : lookupA x b'.derivedObjectMappings =
      (proposalsFor x (proposalsOf scE.morphisms tcE.morphisms b.morphismMappings)).foldl
        keyStep none := by
    rw [hder, deriveAll_fst, lookupA_foldl_propStepD]
    rfl
  rw [hkey, hsplit]
  exact keyStep_split pre post hpre

/-- The C1 counterexample builder: source category 0, target category 1,
with morphism mappings `14 ↦ 16` declared first and `15 ↦ 17` second. -/
def bC1 : FBuilder :=
  mapMorphismF
    (mapMorphismF { store := some 100, sourceCat := some 0, targetCat := some 1 }
      14 16)
    15 17

/-- The builder state after `validate()` recomputed the derivation. -/
def bC1v : FBuilder :=
  match validateF bC1 baseSt with
  | Except.ok (_, b') => b'
  | Except.error _ => bC1

/-- The loaded category cache, defaulting to empty. -/
def cacheOrEmpty (c : Option CatCache) : CatCache :=
  c.getD ⟨[], []⟩

/-- Counterexample to claim C1 as frozen: in the example federation the
builder declares `14 ↦ 16` first (morphism `14 : 2 → 4` in the source
category, `16 : 8 → 10` in the target category) and `15 ↦ 17` second
(`15 : 2 → 6`, `17 : 8 → 12`). No earlier-processed morphism mapping
proposes a different target for object 2 (the proposals for 2 are
exactly `(8, from 14)` then `(8, from 15)`), so the claim requires the
entry `2 ↦ {targetId := 8, fromMorphismId := 14}`; the recomputed
derived map instead holds `{targetId := 8, fromMorphismId := 15}`,
because the later same-target proposal overwrote the tag. -/
theorem derived_mapping_tag_overwritten_cex :
    isOkE (validateF bC1 baseSt) = true ∧
    lookupA 14 bC1.morphismMappings = some 16 ∧
    lookupA 15 bC1.morphismMappings = some 17 ∧
    bC1v.sourceCategoryData = some (cacheOrEmpty bC1v.sourceCategoryData) ∧
    bC1v.targetCategoryData = some (cacheOrEmpty bC1v.targetCategoryData) ∧
    proposalsFor 2 (proposalsOf (cacheOrEmpty bC1v.sourceCategoryData).morphisms
      (cacheOrEmpty bC1v.targetCategoryData).morphisms bC1.morphismMappings) =
      [(8, 14), (8, 15)] ∧
    lookupA 2 bC1v.derivedObjectMappings = some ⟨8, 15⟩ ∧
    lookupA 2 bC1v.derivedObjectMappings ≠ some ⟨8, 14⟩ := by
  refine ⟨?_, ?_, ?_, ?_, ?_, ?_, ?_, ?_⟩ <;> decide

/-- Witness for C1 (amended) at the counterexample input, instantiated
for the second mapping `15 ↦ 17` (whose `x`-proposal `(8, from 15)` has
`pre = [(8, 14)]` all proposing target 8 and `post = []`): the derived
entry is exactly `2 ↦ {targetId := 8, fromMorphismId := 15}`. -/
theorem derived_mapping_from_morphism_witness :
    (missingFieldsF bC1 = [] ∧
     validateF bC1 baseSt = Except.ok (⟨true, []⟩, bC1v) ∧
     proposalsFor 2 (proposalsOf (cacheOrEmpty bC1v.sourceCategoryData).morphisms
       (cacheOrEmpty bC1v.targetCategoryData).morphisms bC1.morphismMappings) =
       [(8, 14)] ++ (8, 15) :: []) ∧
    ((∃ m, lookupA 2 bC1v.derivedObjectMappings = some ⟨8, m⟩) ∧
     ((∀ q ∈ ([] : List (Id × Id)), q.1 ≠ 8) →
       lookupA 2 bC1v.derivedObjectMappings = some ⟨8, 15⟩)) :=
  ⟨⟨by decide, by decide, by decide⟩,
   derived_mapping_from_morphism bC1 baseSt ⟨true, []⟩ bC1v
     (cacheOrEmpty bC1v.sourceCategoryData) (cacheOrEmpty bC1v.targetCategoryData)
     2 8 15 [(8, 14)] [] (by decide) (by decide) (by decide) (by decide)
     (by decide) (by decide)⟩

/-! ### Claim C8: preimage/image round trip on the query engine -/

theorem lookupA_of_mem_nodup {α : Type} {k : Id} {v : α} {l : List (Id × α)}
    (hnd : (l.map Prod.fst).Nodup) (hmem : (k, v) ∈ l) :
    lookupA k l = some v := by
  induction l with
  | nil => simp at hmem
  | cons p rest ih =>
      rw [List.map_cons, List.nodup_cons] at hnd
      rcases List.mem_cons.mp hmem with h1 | h1
      · rw [← h1]
        rw [lookupA]
        simp
      · have hk : p.1 ≠ k := by
          intro he
          apply hnd.1
          rw [he]
          exact List.mem_map_of_mem _ h1
        rw [lookupA, if_neg hk]
        exact ih hnd.2 h1

theorem allKeys_cons (s : StoreState) (rest : List StoreState) :
    allKeys (s :: rest) = s.constructs.map Prod.fst ++ allKeys rest := by
  simp [allKeys]

theorem readAcrossL_present {l : List StoreState} (hnd : (allKeys l).Nodup)
    {s : StoreState} {i : Id} {c : StoredCTC}
    (hs : s ∈ l) (hmem : (i, c) ∈ s.constructs) :
    readAcrossL i l = some c := by
  induction l with
  | nil => simp at hs
  | cons s₁ rest ih =>
      rw [allKeys_cons] at hnd
      obtain ⟨hn1, hn2, hdisj⟩ := List.nodup_append.mp hnd
      rcases List.mem_cons.mp hs with h1 | h1
      · subst h1
        rw [readAcrossL]
        have hl : lookupA i s.constructs = some c := lookupA_of_mem_nodup hn1 hmem
        rw [show s.readS i = lookupA i s.constructs from rfl, hl]
      · have hiInRest : i ∈ allKeys rest := mem_allKeys_of_mem h1 hmem
        have hnotin : i ∉ s₁.constructs.map Prod.fst := fun hin => hdisj hin hiInRest
        rw [readAcrossL]
        have hnone : s₁.readS i = none := lookupA_eq_none_of_not_mem hnotin
        rw [hnone]
        exact ih hn2 h1

theorem readAcross_present {st : ClientState} (hnd : GlobalNodup st)
    {s : StoreState} {i : Id} {c : StoredCTC}
    (hs : s ∈ st.stores) (hmem : (i, c) ∈ s.constructs) :
    readAcross st i = some c :=
  readAcrossL_present hnd hs hmem

theorem readAcrossL_entry {i : Id} {c : StoredCTC} :
    ∀ {l : List StoreState}, readAcrossL i l = some c →
      ∃ s ∈ l, (i, c) ∈ s.constructs := by
  intro l
  induction l with
  | nil => intro h; simp [readAcrossL] at h
  | cons s₁ rest ih =>
      intro h
      rw [readAcrossL] at h
      cases hr : s₁.readS i with
      | some c₂ =>
          rw [hr] at h
          injection h with h
          subst h
          exact ⟨s₁, List.mem_cons_self _ _, lookupA_mem hr⟩
      | none =>
          rw [hr] at h
          obtain ⟨s, hs, hmem⟩ := ih h
          exact ⟨s, List.mem_cons_of_mem _ hs, hmem⟩

theorem readAcross_entry {st : ClientState} {i : Id} {c : StoredCTC}
    (h : readAcross st i = some c) :
    ∃ s ∈ st.stores, (i, c) ∈ s.constructs :=
  readAcrossL_entry h

theorem readAcross_sig_id {st : ClientState} (hkm : KeysMatch st) {i : Id}
    {c : StoredCTC} (h : readAcross st i = some c) : c.signature.id = i := by
  obtain ⟨s, hs, hmem⟩ := readAcross_entry h
  exact hkm s hs (i, c) hmem

theorem firstTargetHit_inv {st : ClientState} {A : Id} {X : StoredCTC} :
    ∀ {l : List StoredCTC}, firstTargetHit st A l = some X →
      ∃ m ∈ l, ∃ om, getObjectMappingData m.data = some om ∧
        om.sourceObjectId = A ∧ readAcross st om.targetObjectId = some X := by
  intro l
  induction l with
  | nil => intro h; simp [firstTargetHit] at h
  | cons m rest ih =>
      intro h
      rw [firstTargetHit] at h
      cases hd : getObjectMappingData m.data with
      | none =>
          simp only [hd] at h
          obtain ⟨m₂, hm₂, om, h1, h2, h3⟩ := ih h
          exact ⟨m₂, List.mem_cons_of_mem _ hm₂, om, h1, h2, h3⟩
      | some om =>
          simp only [hd] at h
          by_cases hsrc : om.sourceObjectId = A
          · rw [if_pos hsrc] at h
            cases hread : readAcross st om.targetObjectId with
            | some obj =>
                rw [hread] at h
                injection h with h
                subst h
                exact ⟨m, List.mem_cons_self _ _, om, hd, hsrc, hread⟩
            | none =>
                rw [hread] at h
                obtain ⟨m₂, hm₂, om₂, h1, h2, h3⟩ := ih h
                exact ⟨m₂, List.mem_cons_of_mem _ hm₂, om₂, h1, h2, h3⟩
          · rw [if_neg hsrc] at h
            obtain ⟨m₂, hm₂, om₂, h1, h2, h3⟩ := ih h
            exact ⟨m₂, List.mem_cons_of_mem _ hm₂, om₂, h1, h2, h3⟩

theorem collectSourceHits_mem {st : ClientState} {T : Id} {m : StoredCTC}
    {om : ObjectMappingFields} {cA : StoredCTC} :
    ∀ {l : List StoredCTC}, m ∈ l →
      getObjectMappingData m.data = some om → om.targetObjectId = T →
      readAcross st om.sourceObjectId = some cA →
      cA ∈ collectSourceHits st T l := by
  intro l
  induction l with
  | nil => intro h; simp at h
  | cons m₁ rest ih =>
      intro hm hd ht hread
      rw [collectSourceHits]
      rcases List.mem_cons.mp hm with h1 | h1
      · subst h1
        simp only [hd]
        rw [if_pos ht, hread]
        exact List.mem_cons_self _ _
      · cases hd₁ : getObjectMappingData m₁.data with
        | none =>
            simp only [hd₁]
            exact ih h1 hd ht hread
        | some om₁ =>
            simp only [hd₁]
            by_cases ht₁ : om₁.targetObjectId = T
            · rw [if_pos ht₁]
              cases hread₁ : readAcross st om₁.sourceObjectId with
              | some obj => exact List.mem_cons_of_mem _ (ih h1 hd ht hread)
              | none => exact ih h1 hd ht hread
            · rw [if_neg ht₁]
              exact ih h1 hd ht hread

/-- Claim C8: for any functor `F` and object id `A` mapped by some
ObjectMapping row of `F`, if `getTargetObjectForSource(F, A)` returns an
object `X`, then `getSourceObjectsForTarget(F, X.id)` contains the
construct with id `A` — assuming `A` resolves in some attached store and
the state is key-consistent (constructs stored under their own signature
ids, as every engine-created state is). -/
theorem preimage_image_round_trip (st : ClientState) (F A : Id)
    (X cA : StoredCTC)
    (hkm : KeysMatch st)
    (hres : readAcross st A = some cA)
    (himg : qTargetObjectForSource st F A = some X) :
    ∃ c ∈ qSourceObjectsForTarget st F X.signature.id, c.signature.id = A := by
  obtain ⟨m, hm, om, hd, hsrc, hread⟩ := firstTargetHit_inv himg
  have hXid : X.signature.id = om.targetObjectId := readAcross_sig_id hkm hread
  have hAid : cA.signature.id = A := readAcross_sig_id hkm hres
  refine ⟨cA, ?_, hAid⟩
  unfold qSourceObjectsForTarget
  exact collectSourceHits_mem hm hd hXid.symm (by rw [hsrc]; exact hres)

/-- Witness for C8: in the example federation extended with a functor
`20 : C → D` and the single mapping row `21 : 2 ↦ 8`, the image of 2 is
construct 8 and the preimage of 8 recovers construct 2. -/
def c8St : ClientState :=
  let s := stepC baseSt fun st => createFunctorC st 0 1 100 {}
  stepC s fun st => addObjectMappingC st 20 2 8 100

/-- Witness for C8 at the concrete state `c8St`. -/
theorem preimage_image_round_trip_witness :
    (KeysMatch c8St ∧
     readAcross c8St 2 ≠ none ∧
     (qTargetObjectForSource c8St 20 2).isSome ∧
     (qTargetObjectForSource c8St 20 2).map (fun c => c.signature.id) = some 8) ∧
    (∃ c ∈ qSourceObjectsForTarget c8St 20
        ((Option.getD (qTargetObjectForSource c8St 20 2)
          ⟨⟨0, 0, 0⟩, ⟨none, none, 0, 0⟩, .Object, none⟩).signature.id),
      c.signature.id = 2) :=
  ⟨⟨by decide, by decide, by decide, by decide⟩,
   preimage_image_round_trip c8St 20 2
     (Option.getD (qTargetObjectForSource c8St 20 2)
       ⟨⟨0, 0, 0⟩, ⟨none, none, 0, 0⟩, .Object, none⟩)
     (Option.getD (readAcross c8St 2)
       ⟨⟨0, 0, 0⟩, ⟨none, none, 0, 0⟩, .Object, none⟩)
     (by decide) (by decide) (by decide)⟩

/-! ### Claim C5: the identity-morphism invariant of `createObject` -/

theorem findStore_isSome_iff (l : List StoreState) (sid : Id) :
    (l.find? fun s => decide (s.id = sid)).isSome = true ↔
      sid ∈ l.map StoreState.id := by
  induction l with
  | nil => simp [List.find?]
  | cons s rest ih =>
      by_cases h : s.id = sid
      · simp [List.find?, h]
      · simp [List.find?, h, ih]
        intro he
        exact absurd he.symm h

/-- Attachment of a store only depends on the registered store ids, so it
is preserved by every operation that keeps the id list. -/
theorem attachedC_of_storeIds {st st2 : ClientState}
    (h : st2.stores.map StoreState.id = st.stores.map StoreState.id)
    {sid : Id} (ha : attachedC st sid) : attachedC st2 sid := by
  unfold attachedC getStoreC at ha ⊢
  have h1 := (findStore_isSome_iff st.stores sid).mp ha
  exact (findStore_isSome_iff st2.stores sid).mpr (by rw [h]; exact h1)

/-- A store update addressed at a resolvable key always succeeds and
returns the rewritten construct. -/
theorem updateInStoreC_of_readInStore {st : ClientState} {sid i : Id}
    {existing : StoredCTC} (h : readInStore st sid i = some existing)
    (d : Option CTCData) (opts : CreateOpts) :
    ∃ st1, updateInStoreC st sid i d opts =
      Except.ok (st1, updatedCTC existing d opts st.now) := by
  cases hfind : getStoreC st sid with
  | none =>
      simp only [readInStore, hfind] at h
      exact Option.noConfusion h
  | some s₀ =>
      simp only [readInStore, hfind] at h
      refine
        ⟨{ st with
             stores := replaceStoreL sid (s₀.setS i (updatedCTC existing d opts st.now)) st.stores,
             now := st.now + 1 },
         ?_⟩
      simp only [updateInStoreC, hfind, storeUpdate_some h d opts st.now,
        bind, Except.bind]

/-- Claim C5: an Object created through `Client.createObject` (with the
category, if any, a previously issued id) comes back with
`identityMorphismId` set to the id of an auto-created Morphism; reading
that id through the federation yields a Morphism whose `sourceId` and
`targetId` both equal the new object id and whose `isIdentity` flag is
`true` - whether or not a category was supplied. -/
theorem createObject_identity_invariant (st : ClientState) (sid : Id)
    (catOpt : Option Id) (opts : CreateOpts)
    (hwf : WF st) (hatt : attachedC st sid)
    (hcat : ∀ cid, catOpt = some cid → cid < st.nextId) :
    ∃ st3 obj od idm md,
      createObjectC st sid catOpt opts = Except.ok (st3, obj) ∧
      obj.signature.id = st.nextId ∧
      getObjectData obj = some od ∧
      od.identityMorphismId = some (st.nextId + 1) ∧
      readAcross st3 (st.nextId + 1) = some idm ∧
      idm.type = CTCType.Morphism ∧
      getMorphismData idm = some md ∧
      md.sourceId = obj.signature.id ∧
      md.targetId = obj.signature.id ∧
      md.isIdentity = some true := by
  cases catOpt with
  | some cid =>
      have hc : cid < st.nextId := hcat cid rfl
      have hne : st.nextId ≠ cid := by
        intro he
        rw [he] at hc
        exact Nat.lt_irrefl _ hc
      obtain ⟨st1, stored, hE1⟩ := @createCTCc_attached st sid CTCType.Object
        (some (CTCData.object { categoryId := some cid })) opts hatt
      obtain ⟨s₀, hfind0, hcval, hst1⟩ := createCTCc_ok_inv hE1
      have hsig : stored.signature.id = st.nextId := by
        rw [hcval]
        rfl
      have hn1 : st1.nextId = st.nextId + 1 := (createCTCc_counters hE1).1
      have hWF1 : WF st1 := createCTCc_WF hE1 hwf
      have hatt1 : attachedC st1 sid :=
        attachedC_of_storeIds (createCTCc_storeIds hE1) hatt
      set st2 := addIdToArray st1 ((findStoreFor st1 cid).getD sid) cid
        ArrayField.objectIds st.nextId with hst2
      have hWF2 : WF st2 := addIdToArray_WF _ _ _ _ _ hWF1
      have hn2 : st2.nextId = st.nextId + 1 := by
        rw [hst2, addIdToArray_counters]
        exact hn1
      have hatt2 : attachedC st2 sid :=
        attachedC_of_storeIds (addIdToArray_storeIds _ _ _ _ _) hatt1
      have hri2 : readInStore st2 sid st.nextId = some stored := by
        rw [hst2, addIdToArray_readInStore_ne _ _ _ _ _ hne sid]
        exact createCTCc_readInStore_fresh hE1
      obtain ⟨st3, idm, hE3⟩ := @createCTCc_attached st2 sid CTCType.Morphism
        (some (CTCData.morphism
          { sourceId := st.nextId, targetId := st.nextId,
            categoryId := some cid, isIdentity := some true }))
        { name := some (String.append "id_" (opts.name.getD "unnamed")) } hatt2
      obtain ⟨s₂, hfind2, hcval3, hst3⟩ := createCTCc_ok_inv hE3
      have hidmid : idm.signature.id = st.nextId + 1 := by
        rw [hcval3]
        show st2.nextId = st.nextId + 1
        exact hn2
      have hWF3 : WF st3 := createCTCc_WF hE3 hWF2
      have hra3 : readAcross st3 (st.nextId + 1) = some idm := by
        rw [← hn2]
        exact createCTCc_readAcross_fresh hE3 hWF2.1
      have hne3 : st.nextId ≠ st2.nextId := by
        rw [hn2]
        exact Nat.ne_of_lt (Nat.lt_succ_self _)
      have hri3 : readInStore st3 sid st.nextId = some stored := by
        rw [createCTCc_readInStore_ne hE3 hne3 sid]
        exact hri2
      obtain ⟨st4, hE4⟩ := updateInStoreC_of_readInStore hri3
        (some (CTCData.object
          { categoryId := some cid,
            identityMorphismId := some (st.nextId + 1),
            morphismsFromIds := [st.nextId + 1],
            morphismsToIds := [st.nextId + 1] })) {}
      have hra4 : readAcross st4 (st.nextId + 1) = some idm := by
        rw [updateInStoreC_readAcross_ne hE4 (Nat.succ_ne_self _)]
        exact hra3
      have hri4 : readInStore st4 sid st.nextId =
          some (updatedCTC stored
            (some (CTCData.object
              { categoryId := some cid,
                identityMorphismId := some (st.nextId + 1),
                morphismsFromIds := [st.nextId + 1],
                morphismsToIds := [st.nextId + 1] })) {} st3.now) :=
        updateInStoreC_readInStore_self hE4
      set st5 := addIdToArray st4 ((findStoreFor st4 cid).getD sid) cid
        ArrayField.morphismIds (st.nextId + 1) with hst5
      have hne5 : st.nextId + 1 ≠ cid := by
        intro he
        rw [← he] at hc
        exact Nat.lt_irrefl _ (Nat.lt_trans (Nat.lt_succ_self _) hc)
      have hra5 : readAcross st5 (st.nextId + 1) = some idm := by
        rw [hst5, addIdToArray_readAcross_ne _ _ _ _ _ hne5]
        exact hra4
      have hri5 : readInStore st5 sid st.nextId =
          some (updatedCTC stored
            (some (CTCData.object
              { categoryId := some cid,
                identityMorphismId := some (st.nextId + 1),
                morphismsFromIds := [st.nextId + 1],
                morphismsToIds := [st.nextId + 1] })) {} st3.now) := by
        rw [hst5, addIdToArray_readInStore_ne _ _ _ _ _ hne sid]
        exact hri4
      cases hfind5 : getStoreC st5 sid with
      | none =>
          simp only [readInStore, hfind5] at hri5
          exact Option.noConfusion hri5
      | some s5 =>
          simp only [readInStore, hfind5] at hri5
          refine ⟨st5,
            updatedCTC stored
              (some (CTCData.object
                { categoryId := some cid,
                  identityMorphismId := some (st.nextId + 1),
                  morphismsFromIds := [st.nextId + 1],
                  morphismsToIds := [st.nextId + 1] })) {} st3.now,
            { categoryId := some cid,
              identityMorphismId := some (st.nextId + 1),
              morphismsFromIds := [st.nextId + 1],
              morphismsToIds := [st.nextId + 1] },
            idm,
            { sourceId := st.nextId, targetId := st.nextId,
              categoryId := some cid, isIdentity := some true },
            ?_, hsig, rfl, rfl, hra5, ?_, ?_, hsig.symm, hsig.symm, rfl⟩
          · unfold createObjectC
            simp only [bind, Except.bind, hE1, hsig]
            rw [← hst2]
            simp only [hE3, hidmid]
            simp only [hE4]
            rw [← hst5]
            simp only [hfind5, Option.bind, hri5]
          · rw [hcval3]
          · rw [hcval3]
            rfl
  | none =>
      obtain ⟨st1, stored, hE1⟩ := @createCTCc_attached st sid CTCType.Object
        (some (CTCData.object { categoryId := none })) opts hatt
      obtain ⟨s₀, hfind0, hcval, hst1⟩ := createCTCc_ok_inv hE1
      have hsig : stored.signature.id = st.nextId := by
        rw [hcval]
        rfl
      have hn1 : st1.nextId = st.nextId + 1 := (createCTCc_counters hE1).1
      have hWF1 : WF st1 := createCTCc_WF hE1 hwf
      have hatt1 : attachedC st1 sid :=
        attachedC_of_storeIds (createCTCc_storeIds hE1) hatt
      obtain ⟨st3, idm, hE3⟩ := @createCTCc_attached st1 sid CTCType.Morphism
        (some (CTCData.morphism
          { sourceId := st.nextId, targetId := st.nextId,
            categoryId := none, isIdentity := some true }))
        { name := some (String.append "id_" (opts.name.getD "unnamed")) } hatt1
      obtain ⟨s₂, hfind2, hcval3, hst3⟩ := createCTCc_ok_inv hE3
      have hidmid : idm.signature.id = st.nextId + 1 := by
        rw [hcval3]
        show st1.nextId = st.nextId + 1
        exact hn1
      have hra3 : readAcross st3 (st.nextId + 1) = some idm := by
        rw [← hn1]
        exact createCTCc_readAcross_fresh hE3 hWF1.1
      have hne3 : st.nextId ≠ st1.nextId := by
        rw [hn1]
        exact Nat.ne_of_lt (Nat.lt_succ_self _)
      have hri3 : readInStore st3 sid st.nextId = some stored := by
        rw [createCTCc_readInStore_ne hE3 hne3 sid]
        exact createCTCc_readInStore_fresh hE1
      obtain ⟨st4, hE4⟩ := updateInStoreC_of_readInStore hri3
        (some (CTCData.object
          { categoryId := none,
            identityMorphismId := some (st.nextId + 1),
            morphismsFromIds := [st.nextId + 1],
            morphismsToIds := [st.nextId + 1] })) {}
      have hra4 : readAcross st4 (st.nextId + 1) = some idm := by
        rw [updateInStoreC_readAcross_ne hE4 (Nat.succ_ne_self _)]
        exact hra3
      have hri4 : readInStore st4 sid st.nextId =
          some (updatedCTC stored
            (some (CTCData.object
              { categoryId := none,
                identityMorphismId := some (st.nextId + 1),
                morphismsFromIds := [st.nextId + 1],
                morphismsToIds := [st.nextId + 1] })) {} st3.now) :=
        updateInStoreC_readInStore_self hE4
      cases hfind5 : getStoreC st4 sid with
      | none =>
          simp only [readInStore, hfind5] at hri4
          exact Option.noConfusion hri4
      | some s5 =>
          simp only [readInStore, hfind5] at hri4
          refine ⟨st4,
            updatedCTC stored
              (some (CTCData.object
                { categoryId := none,
                  identityMorphismId := some (st.nextId + 1),
                  morphismsFromIds := [st.nextId + 1],
                  morphismsToIds := [st.nextId + 1] })) {} st3.now,
            { categoryId := none,
              identityMorphismId := some (st.nextId + 1),
              morphismsFromIds := [st.nextId + 1],
              morphismsToIds := [st.nextId + 1] },
            idm,
            { sourceId := st.nextId, targetId := st.nextId,
              categoryId := none, isIdentity := some true },
            ?_, hsig, rfl, rfl, hra4, ?_, ?_, hsig.symm, hsig.symm, rfl⟩
          · unfold createObjectC
            simp only [bind, Except.bind, hE1, hsig]
            simp only [hE3, hidmid]
            simp only [hE4]
            simp only [hfind5, Option.bind, hri4]
          · rw [hcval3]
          · rw [hcval3]
            rfl

/-- Witness for C5: creating an object in category 0 of the example
federation produces object 20 with identity morphism 21. -/
theorem createObject_identity_invariant_witness :
    (WF baseSt ∧ attachedC baseSt 100 ∧
     (∀ cid, (some 0 : Option Id) = some cid → cid < baseSt.nextId)) ∧
    (∃ st3 obj od idm md,
      createObjectC baseSt 100 (some 0) {} = Except.ok (st3, obj) ∧
      obj.signature.id = baseSt.nextId ∧
      getObjectData obj = some od ∧
      od.identityMorphismId = some (baseSt.nextId + 1) ∧
      readAcross st3 (baseSt.nextId + 1) = some idm ∧
      idm.type = CTCType.Morphism ∧
      getMorphismData idm = some md ∧
      md.sourceId = obj.signature.id ∧
      md.targetId = obj.signature.id ∧
      md.isIdentity = some true) :=
  ⟨⟨by decide, by decide, fun cid hc => by
      injection hc with h
      rw [← h]
      decide⟩,
   createObject_identity_invariant baseSt 100 (some 0) {} (by decide)
     (by decide) (fun cid hc => by
      injection hc with h
      rw [← h]
      decide)⟩

/-! ### Claim C7: unresolvable back-references are silently skipped -/

/-- Claim C7: for each Graph Maintenance creation operation, when a
referenced category / object / functor id resolves in no attached store,
the back-reference append for that referent is silently skipped - no
error - and the primary construct is still created in the target store
and returned. The freshness hypotheses `< st.nextId` say the dangling
referents are previously issued ids, never the ones about to be minted. -/
theorem creation_skips_unresolvable_backrefs (st : ClientState) (sid : Id)
    (hwf : WF st) (hatt : attachedC st sid) :
    (∀ cid opts, readAcross st cid = none → cid < st.nextId →
      ∃ st2 c, createObjectC st sid (some cid) opts = Except.ok (st2, c) ∧
        c.signature.id = st.nextId ∧
        readInStore st2 sid st.nextId = some c ∧
        readAcross st2 cid = none) ∧
    (∀ src tgt catOpt opts,
      (∀ cid, catOpt = some cid → readAcross st cid = none ∧ cid < st.nextId) →
      readAcross st src = none → src < st.nextId →
      readAcross st tgt = none → tgt < st.nextId →
      ∃ st2 c, createMorphismC st src tgt sid catOpt opts = Except.ok (st2, c) ∧
        c.signature.id = st.nextId ∧
        readInStore st2 sid st.nextId = some c ∧
        readAcross st2 src = none ∧ readAcross st2 tgt = none) ∧
    (∀ sc tc opts, readAcross st sc = none → sc < st.nextId →
      readAcross st tc = none → tc < st.nextId →
      ∃ st2 c, createFunctorC st sc tc sid opts = Except.ok (st2, c) ∧
        c.signature.id = st.nextId ∧
        readInStore st2 sid st.nextId = some c ∧
        readAcross st2 sc = none ∧ readAcross st2 tc = none) ∧
    (∀ fid srcO tgtO, readAcross st fid = none → fid < st.nextId →
      ∃ st2 c, addObjectMappingC st fid srcO tgtO sid = Except.ok (st2, c) ∧
        c.signature.id = st.nextId ∧
        readInStore st2 sid st.nextId = some c ∧
        readAcross st2 fid = none) ∧
    (∀ fid srcM tgtM, readAcross st fid = none → fid < st.nextId →
      ∃ st2 c, addMorphismMappingC st fid srcM tgtM sid = Except.ok (st2, c) ∧
        c.signature.id = st.nextId ∧
        readInStore st2 sid st.nextId = some c ∧
        readAcross st2 fid = none) := by
  refine ⟨?_, ?_, ?_, ?_, ?_⟩
  · intro cid opts hcid hclt
    have hne : cid ≠ st.nextId := Nat.ne_of_lt hclt
    obtain ⟨st1, stored, hE1⟩ := @createCTCc_attached st sid CTCType.Object
      (some (CTCData.object { categoryId := some cid })) opts hatt
    obtain ⟨s₀, hfind0, hcval, hst1⟩ := createCTCc_ok_inv hE1
    have hsig : stored.signature.id = st.nextId := by
      rw [hcval]
      rfl
    have hn1 : st1.nextId = st.nextId + 1 := (createCTCc_counters hE1).1
    have hWF1 : WF st1 := createCTCc_WF hE1 hwf
    have hatt1 : attachedC st1 sid :=
      attachedC_of_storeIds (createCTCc_storeIds hE1) hatt
    have hcid1 : readAcross st1 cid = none := by
      rw [createCTCc_readAcross_ne hE1 hne]
      exact hcid
    have hskip2 : addIdToArray st1 ((findStoreFor st1 cid).getD sid) cid
        ArrayField.objectIds st.nextId = st1 :=
      addIdToArray_unresolved hcid1 _ _ _
    obtain ⟨st3, idm, hE3⟩ := @createCTCc_attached st1 sid CTCType.Morphism
      (some (CTCData.morphism
        { sourceId := st.nextId, targetId := st.nextId,
          categoryId := some cid, isIdentity := some true }))
      { name := some (String.append "id_" (opts.name.getD "unnamed")) } hatt1
    obtain ⟨s₂, hfind2, hcval3, hst3⟩ := createCTCc_ok_inv hE3
    have hidmid : idm.signature.id = st.nextId + 1 := by
      rw [hcval3]
      show st1.nextId = st.nextId + 1
      exact hn1
    have hne3 : st.nextId ≠ st1.nextId := by
      rw [hn1]
      exact Nat.ne_of_lt (Nat.lt_succ_self _)
    have hri3 : readInStore st3 sid st.nextId = some stored := by
      rw [createCTCc_readInStore_ne hE3 hne3 sid]
      exact createCTCc_readInStore_fresh hE1
    obtain ⟨st4, hE4⟩ := updateInStoreC_of_readInStore hri3
      (some (CTCData.object
        { categoryId := some cid,
          identityMorphismId := some (st.nextId + 1),
          morphismsFromIds := [st.nextId + 1],
          morphismsToIds := [st.nextId + 1] })) {}
    have hne13 : cid ≠ st1.nextId := by
      rw [hn1]
      exact Nat.ne_of_lt (Nat.lt_succ_of_lt hclt)
    have hcid4 : readAcross st4 cid = none := by
      rw [updateInStoreC_readAcross_ne hE4 hne, createCTCc_readAcross_ne hE3 hne13]
      exact hcid1
    have hskip5 : addIdToArray st4 ((findStoreFor st4 cid).getD sid) cid
        ArrayField.morphismIds (st.nextId + 1) = st4 :=
      addIdToArray_unresolved hcid4 _ _ _
    have hri4 : readInStore st4 sid st.nextId =
        some (updatedCTC stored
          (some (CTCData.object
            { categoryId := some cid,
              identityMorphismId := some (st.nextId + 1),
              morphismsFromIds := [st.nextId + 1],
              morphismsToIds := [st.nextId + 1] })) {} st3.now) :=
      updateInStoreC_readInStore_self hE4
    have hri4b := hri4
    cases hfind5 : getStoreC st4 sid with
    | none =>
        simp only [readInStore, hfind5] at hri4
        exact Option.noConfusion hri4
    | some s5 =>
        simp only [readInStore, hfind5] at hri4
        refine ⟨st4,
          updatedCTC stored
            (some (CTCData.object
              { categoryId := some cid,
                identityMorphismId := some (st.nextId + 1),
                morphismsFromIds := [st.nextId + 1],
                morphismsToIds := [st.nextId + 1] })) {} st3.now,
          ?_, hsig, hri4b, hcid4⟩
        unfold createObjectC
        simp only [bind, Except.bind, hE1, hsig]
        rw [hskip2]
        simp only [hE3, hidmid]
        simp only [hE4]
        rw [hskip5]
        simp only [hfind5, Option.bind, hri4]
  · intro src tgt catOpt opts hcat hsrc hsrclt htgt htgtlt
    have hnes : src ≠ st.nextId := Nat.ne_of_lt hsrclt
    have hnet : tgt ≠ st.nextId := Nat.ne_of_lt htgtlt
    obtain ⟨st1, stored, hE1⟩ := @createCTCc_attached st sid CTCType.Morphism
      (some (CTCData.morphism
        { sourceId := src, targetId := tgt, categoryId := catOpt })) opts hatt
    obtain ⟨s₀, hfind0, hcval, hst1⟩ := createCTCc_ok_inv hE1
    have hsig : stored.signature.id = st.nextId := by
      rw [hcval]
      rfl
    have hsrc1 : readAcross st1 src = none := by
      rw [createCTCc_readAcross_ne hE1 hnes]
      exact hsrc
    have htgt1 : readAcross st1 tgt = none := by
      rw [createCTCc_readAcross_ne hE1 hnet]
      exact htgt
    have hskips : addIdToArray st1 ((findStoreFor st1 src).getD sid) src
        ArrayField.morphismsFromIds st.nextId = st1 :=
      addIdToArray_unresolved hsrc1 _ _ _
    have hskipt : addIdToArray st1 ((findStoreFor st1 tgt).getD sid) tgt
        ArrayField.morphismsToIds st.nextId = st1 :=
      addIdToArray_unresolved htgt1 _ _ _
    refine ⟨st1, stored, ?_, hsig, createCTCc_readInStore_fresh hE1, hsrc1, htgt1⟩
    cases catOpt with
    | some cid =>
        obtain ⟨hcid, hclt⟩ := hcat cid rfl
        have hnec : cid ≠ st.nextId := Nat.ne_of_lt hclt
        have hcid1 : readAcross st1 cid = none := by
          rw [createCTCc_readAcross_ne hE1 hnec]
          exact hcid
        have hskipc : addIdToArray st1 ((findStoreFor st1 cid).getD sid) cid
            ArrayField.morphismIds st.nextId = st1 :=
          addIdToArray_unresolved hcid1 _ _ _
        unfold createMorphismC
        simp only [bind, Except.bind, hE1, hsig]
        rw [hskipc, hskips, hskipt]
    | none =>
        unfold createMorphismC
        simp only [bind, Except.bind, hE1, hsig]
        rw [hskips, hskipt]
  · intro sc tc opts hsc hsclt htc htclt
    have hnes : sc ≠ st.nextId := Nat.ne_of_lt hsclt
    have hnet : tc ≠ st.nextId := Nat.ne_of_lt htclt
    obtain ⟨st1, stored, hE1⟩ := @createCTCc_attached st sid CTCType.Functor
      (some (CTCData.functor
        { sourceCategoryId := sc, targetCategoryId := tc })) opts hatt
    obtain ⟨s₀, hfind0, hcval, hst1⟩ := createCTCc_ok_inv hE1
    have hsig : stored.signature.id = st.nextId := by
      rw [hcval]
      rfl
    have hsc1 : readAcross st1 sc = none := by
      rw [createCTCc_readAcross_ne hE1 hnes]
      exact hsc
    have htc1 : readAcross st1 tc = none := by
      rw [createCTCc_readAcross_ne hE1 hnet]
      exact htc
    have hskips : addIdToArray st1 ((findStoreFor st1 sc).getD sid) sc
        ArrayField.functorsFromIds st.nextId = st1 :=
      addIdToArray_unresolved hsc1 _ _ _
    have hskipt : addIdToArray st1 ((findStoreFor st1 tc).getD sid) tc
        ArrayField.functorsToIds st.nextId = st1 :=
      addIdToArray_unresolved htc1 _ _ _
    refine ⟨st1, stored, ?_, hsig, createCTCc_readInStore_fresh hE1, hsc1, htc1⟩
    unfold createFunctorC
    simp only [bind, Except.bind, hE1, hsig]
    rw [hskips, hskipt]
  · intro fid srcO tgtO hf hflt
    have hne : fid ≠ st.nextId := Nat.ne_of_lt hflt
    obtain ⟨st1, stored, hE1⟩ := @createCTCc_attached st sid CTCType.ObjectMapping
      (some (CTCData.objectMapping
        { functorId := fid, sourceObjectId := srcO, targetObjectId := tgtO }))
      {} hatt
    obtain ⟨s₀, hfind0, hcval, hst1⟩ := createCTCc_ok_inv hE1
    have hsig : stored.signature.id = st.nextId := by
      rw [hcval]
      rfl
    have hf1 : readAcross st1 fid = none := by
      rw [createCTCc_readAcross_ne hE1 hne]
      exact hf
    have hskip : addIdToArray st1 ((findStoreFor st1 fid).getD sid) fid
        ArrayField.objectMappingIds st.nextId = st1 :=
      addIdToArray_unresolved hf1 _ _ _
    refine ⟨st1, stored, ?_, hsig, createCTCc_readInStore_fresh hE1, hf1⟩
    unfold addObjectMappingC
    simp only [bind, Except.bind, hE1, hsig]
    rw [hskip]
  · intro fid srcM tgtM hf hflt
    have hne : fid ≠ st.nextId := Nat.ne_of_lt hflt
    obtain ⟨st1, stored, hE1⟩ := @createCTCc_attached st sid CTCType.MorphismMapping
      (some (CTCData.morphismMapping
        { functorId := fid, sourceMorphismId := srcM, targetMorphismId := tgtM }))
      {} hatt
    obtain ⟨s₀, hfind0, hcval, hst1⟩ := createCTCc_ok_inv hE1
    have hsig : stored.signature.id = st.nextId := by
      rw [hcval]
      rfl
    have hf1 : readAcross st1 fid = none := by
      rw [createCTCc_readAcross_ne hE1 hne]
      exact hf
    have hskip : addIdToArray st1 ((findStoreFor st1 fid).getD sid) fid
        ArrayField.morphismMappingIds st.nextId = st1 :=
      addIdToArray_unresolved hf1 _ _ _
    refine ⟨st1, stored, ?_, hsig, createCTCc_readInStore_fresh hE1, hf1⟩
    unfold addMorphismMappingC
    simp only [bind, Except.bind, hE1, hsig]
    rw [hskip]

/-- A client that has already issued ids 0-4 while its attached store
(id 100) holds none of them: every previously issued id is dangling. -/
def c7St : ClientState :=
  { stores := [⟨100, []⟩], nextId := 5, now := 0 }

/-- Witness for C7 at the concrete state `c7St`: each of the five creation
operations succeeds with every referenced id dangling. -/
theorem creation_skips_unresolvable_backrefs_witness :
    WF c7St ∧ attachedC c7St 100 ∧
    (∃ st2 c, createObjectC c7St 100 (some 1) {} = Except.ok (st2, c) ∧
      c.signature.id = c7St.nextId ∧
      readInStore st2 100 c7St.nextId = some c ∧
      readAcross st2 1 = none) ∧
    (∃ st2 c, createMorphismC c7St 1 2 100 (some 3) {} = Except.ok (st2, c) ∧
      c.signature.id = c7St.nextId ∧
      readInStore st2 100 c7St.nextId = some c ∧
      readAcross st2 1 = none ∧ readAcross st2 2 = none) ∧
    (∃ st2 c, createFunctorC c7St 1 2 100 {} = Except.ok (st2, c) ∧
      c.signature.id = c7St.nextId ∧
      readInStore st2 100 c7St.nextId = some c ∧
      readAcross st2 1 = none ∧ readAcross st2 2 = none) ∧
    (∃ st2 c, addObjectMappingC c7St 4 1 2 100 = Except.ok (st2, c) ∧
      c.signature.id = c7St.nextId ∧
      readInStore st2 100 c7St.nextId = some c ∧
      readAcross st2 4 = none) ∧
    (∃ st2 c, addMorphismMappingC c7St 4 1 2 100 = Except.ok (st2, c) ∧
      c.signature.id = c7St.nextId ∧
      readInStore st2 100 c7St.nextId = some c ∧
      readAcross st2 4 = none) :=
  ⟨by decide, by decide,
   (creation_skips_unresolvable_backrefs c7St 100 (by decide) (by decide)).1
     1 {} (by decide) (by decide),
   (creation_skips_unresolvable_backrefs c7St 100 (by decide) (by decide)).2.1
     1 2 (some 3) {}
     (fun cid hc => by
       injection hc with h
       rw [← h]
       exact ⟨by decide, by decide⟩)
     (by decide) (by decide) (by decide) (by decide),
   (creation_skips_unresolvable_backrefs c7St 100 (by decide) (by decide)).2.2.1
     1 2 {} (by decide) (by decide) (by decide) (by decide),
   (creation_skips_unresolvable_backrefs c7St 100 (by decide) (by decide)).2.2.2.1
     4 1 2 (by decide) (by decide),
   (creation_skips_unresolvable_backrefs c7St 100 (by decide) (by decide)).2.2.2.2
     4 1 2 (by decide) (by decide)⟩

/-! ### Claim C3: identity morphisms mapped automatically during build -/

theorem addObjectMappingC_ok {st : ClientState} {sid : Id}
    (hwf : WF st) (hatt : attachedC st sid) (fid srcO tgtO : Id) :
    ∃ st2 c, addObjectMappingC st fid srcO tgtO sid = Except.ok (st2, c) ∧
      WF st2 ∧
      st2.stores.map StoreState.id = st.stores.map StoreState.id ∧
      st2.nextId = st.nextId + 1 := by
  obtain ⟨st1, stored, hE1⟩ := @createCTCc_attached st sid CTCType.ObjectMapping
    (some (CTCData.objectMapping
      { functorId := fid, sourceObjectId := srcO, targetObjectId := tgtO }))
    {} hatt
  obtain ⟨s₀, hfind0, hcval, hst1⟩ := createCTCc_ok_inv hE1
  have hsig : stored.signature.id = st.nextId := by
    rw [hcval]
    rfl
  refine ⟨addIdToArray st1 ((findStoreFor st1 fid).getD sid) fid
      ArrayField.objectMappingIds st.nextId, stored, ?_, ?_, ?_, ?_⟩
  · unfold addObjectMappingC
    simp only [bind, Except.bind, hE1, hsig]
  · exact addIdToArray_WF _ _ _ _ _ (createCTCc_WF hE1 hwf)
  · rw [addIdToArray_storeIds]
    exact createCTCc_storeIds hE1
  · rw [addIdToArray_counters]
    exact (createCTCc_counters hE1).1

theorem addMorphismMappingC_ok {st : ClientState} {sid : Id}
    (hwf : WF st) (hatt : attachedC st sid) (fid a x : Id) :
    ∃ st2 c, addMorphismMappingC st fid a x sid = Except.ok (st2, c) ∧
      WF st2 ∧
      st2.stores.map StoreState.id = st.stores.map StoreState.id ∧
      st2.nextId = st.nextId + 1 ∧
      (∀ j, j ≠ fid → j ≠ st.nextId → readAcross st2 j = readAcross st j) ∧
      (fid ≠ st.nextId → readAcross st2 st.nextId = some c) ∧
      c.signature.id = st.nextId ∧
      c.type = CTCType.MorphismMapping ∧
      getMorphismMappingData c.data =
        some { functorId := fid, sourceMorphismId := a, targetMorphismId := x } := by
  obtain ⟨st1, stored, hE1⟩ := @createCTCc_attached st sid CTCType.MorphismMapping
    (some (CTCData.morphismMapping
      { functorId := fid, sourceMorphismId := a, targetMorphismId := x }))
    {} hatt
  obtain ⟨s₀, hfind0, hcval, hst1⟩ := createCTCc_ok_inv hE1
  have hsig : stored.signature.id = st.nextId := by
    rw [hcval]
    rfl
  refine ⟨addIdToArray st1 ((findStoreFor st1 fid).getD sid) fid
      ArrayField.morphismMappingIds st.nextId, stored, ?_, ?_, ?_, ?_, ?_, ?_,
      hsig, ?_, ?_⟩
  · unfold addMorphismMappingC
    simp only [bind, Except.bind, hE1, hsig]
  · exact addIdToArray_WF _ _ _ _ _ (createCTCc_WF hE1 hwf)
  · rw [addIdToArray_storeIds]
    exact createCTCc_storeIds hE1
  · rw [addIdToArray_counters]
    exact (createCTCc_counters hE1).1
  · intro j hjf hjn
    rw [addIdToArray_readAcross_ne _ _ _ _ _ hjf]
    exact createCTCc_readAcross_ne hE1 hjn
  · intro hfn
    rw [addIdToArray_readAcross_ne _ _ _ _ _ (Ne.symm hfn)]
    exact createCTCc_readAcross_fresh hE1 hwf.1
  · rw [hcval]
  · rw [hcval]
    rfl

theorem createFunctorC_ok {st : ClientState} {sid : Id}
    (hwf : WF st) (hatt : attachedC st sid) (scId tcId : Id) (opts : CreateOpts) :
    ∃ st1 F, createFunctorC st scId tcId sid opts = Except.ok (st1, F) ∧
      WF st1 ∧ attachedC st1 sid ∧ st1.nextId = st.nextId + 1 ∧
      F.signature.id = st.nextId := by
  obtain ⟨st0, stored, hE1⟩ := @createCTCc_attached st sid CTCType.Functor
    (some (CTCData.functor { sourceCategoryId := scId, targetCategoryId := tcId }))
    opts hatt
  obtain ⟨s₀, hfind0, hcval, hst0⟩ := createCTCc_ok_inv hE1
  have hsig : stored.signature.id = st.nextId := by
    rw [hcval]
    rfl
  refine ⟨addIdToArray
      (addIdToArray st0 ((findStoreFor st0 scId).getD sid) scId
        ArrayField.functorsFromIds st.nextId)
      ((findStoreFor (addIdToArray st0 ((findStoreFor st0 scId).getD sid) scId
        ArrayField.functorsFromIds st.nextId) tcId).getD sid)
      tcId ArrayField.functorsToIds st.nextId,
    stored, ?_, ?_, ?_, ?_, hsig⟩
  · unfold createFunctorC
    simp only [bind, Except.bind, hE1, hsig]
  · exact addIdToArray_WF _ _ _ _ _
      (addIdToArray_WF _ _ _ _ _ (createCTCc_WF hE1 hwf))
  · refine attachedC_of_storeIds ?_ hatt
    rw [addIdToArray_storeIds, addIdToArray_storeIds]
    exact createCTCc_storeIds hE1
  · rw [addIdToArray_counters, addIdToArray_counters]
    exact (createCTCc_counters hE1).1

theorem buildObjectLoop_ok (fid sid : Id) (pairs : List (Id × Id)) :
    ∀ st : ClientState, WF st → attachedC st sid →
    ∃ st2, buildObjectLoop fid sid pairs st = Except.ok st2 ∧
      WF st2 ∧ attachedC st2 sid ∧ st.nextId ≤ st2.nextId := by
  induction pairs with
  | nil =>
      intro st hwf hatt
      exact ⟨st, rfl, hwf, hatt, Nat.le_refl _⟩
  | cons p rest ih =>
      intro st hwf hatt
      cases p with
      | mk a b =>
          obtain ⟨st1, c, hE, hwf1, hids, hn⟩ := addObjectMappingC_ok hwf hatt fid a b
          obtain ⟨st2, hE2, hwf2, hatt2, hn2⟩ :=
            ih st1 hwf1 (attachedC_of_storeIds hids hatt)
          refine ⟨st2, ?_, hwf2, hatt2, ?_⟩
          · simp only [buildObjectLoop, bind, Except.bind, hE, hE2]
          · have h1 : st.nextId ≤ st1.nextId := by
              rw [hn]
              exact Nat.le_succ _
            exact Nat.le_trans h1 hn2

theorem buildMorphismLoop_ok (fid sid : Id) (pairs : List (Id × Id)) :
    ∀ st : ClientState, WF st → attachedC st sid →
    ∃ st2, buildMorphismLoop fid sid pairs st = Except.ok st2 ∧
      WF st2 ∧ attachedC st2 sid ∧ st.nextId ≤ st2.nextId := by
  induction pairs with
  | nil =>
      intro st hwf hatt
      exact ⟨st, rfl, hwf, hatt, Nat.le_refl _⟩
  | cons p rest ih =>
      intro st hwf hatt
      cases p with
      | mk a b =>
          obtain ⟨st1, c, hE, hwf1, hids, hn, _, _, _, _, _⟩ :=
            addMorphismMappingC_ok hwf hatt fid a b
          obtain ⟨st2, hE2, hwf2, hatt2, hn2⟩ :=
            ih st1 hwf1 (attachedC_of_storeIds hids hatt)
          refine ⟨st2, ?_, hwf2, hatt2, ?_⟩
          · simp only [buildMorphismLoop, bind, Except.bind, hE, hE2]
          · have h1 : st.nextId ≤ st1.nextId := by
              rw [hn]
              exact Nat.le_succ _
            exact Nat.le_trans h1 hn2

theorem buildIdentityLoop_ok (sc tc : CatCache) (fid sid : Id)
    (pairs : List (Id × Id)) :
    ∀ st : ClientState, WF st → attachedC st sid → fid < st.nextId →
    ∃ st4, buildIdentityLoop sc tc fid sid pairs st = Except.ok st4 ∧
      WF st4 ∧ attachedC st4 sid ∧ st.nextId ≤ st4.nextId ∧
      (∀ j, j < st.nextId → j ≠ fid → readAcross st4 j = readAcross st j) := by
  induction pairs with
  | nil =>
      intro st hwf hatt hfid
      exact ⟨st, rfl, hwf, hatt, Nat.le_refl _, fun j hj hjf => rfl⟩
  | cons p rest ih =>
      intro st hwf hatt hfid
      cases p with
      | mk A X =>
          cases hia : identityOf sc A with
          | none =>
              obtain ⟨st4, hE4, hwf4, hatt4, hn4, hfr4⟩ := ih st hwf hatt hfid
              refine ⟨st4, ?_, hwf4, hatt4, hn4, hfr4⟩
              simp only [buildIdentityLoop, hia, hE4]
          | some ia =>
              cases hix : identityOf tc X with
              | none =>
                  obtain ⟨st4, hE4, hwf4, hatt4, hn4, hfr4⟩ := ih st hwf hatt hfid
                  refine ⟨st4, ?_, hwf4, hatt4, hn4, hfr4⟩
                  simp only [buildIdentityLoop, hia, hix, hE4]
              | some ix =>
                  obtain ⟨st1, c, hE, hwf1, hids, hn, hfr, _, _, _, _⟩ :=
                    addMorphismMappingC_ok hwf hatt fid ia ix
                  have hfid1 : fid < st1.nextId := by
                    rw [hn]
                    exact Nat.lt_succ_of_lt hfid
                  obtain ⟨st4, hE4, hwf4, hatt4, hn4, hfr4⟩ :=
                    ih st1 hwf1 (attachedC_of_storeIds hids hatt) hfid1
                  refine ⟨st4, ?_, hwf4, hatt4, ?_, ?_⟩
                  · simp only [buildIdentityLoop, hia, hix, bind, Except.bind,
                      hE, hE4]
                  · have h1 : st.nextId ≤ st1.nextId := by
                      rw [hn]
                      exact Nat.le_succ _
                    exact Nat.le_trans h1 hn4
                  · intro j hj hjf
                    have hj1 : j < st1.nextId := by
                      rw [hn]
                      exact Nat.lt_succ_of_lt hj
                    rw [hfr4 j hj1 hjf]
                    exact hfr j hjf (Nat.ne_of_lt hj)

theorem buildIdentityLoop_creates (sc tc : CatCache) (fid sid A X ia ix : Id)
    (hia : identityOf sc A = some ia) (hix : identityOf tc X = some ix) :
    ∀ (pairs : List (Id × Id)) (st : ClientState), (A, X) ∈ pairs →
    WF st → attachedC st sid → fid < st.nextId →
    ∃ st4, buildIdentityLoop sc tc fid sid pairs st = Except.ok st4 ∧
      WF st4 ∧
      ∃ rowC, readAcross st4 rowC.signature.id = some rowC ∧
        rowC.type = CTCType.MorphismMapping ∧
        getMorphismMappingData rowC.data =
          some { functorId := fid, sourceMorphismId := ia,
                 targetMorphismId := ix } := by
  intro pairs
  induction pairs with
  | nil =>
      intro st hmem
      exact absurd hmem (List.not_mem_nil _)
  | cons p rest ih =>
      intro st hmem hwf hatt hfid
      rcases List.mem_cons.mp hmem with heq | hmem2
      · subst heq
        obtain ⟨st1, c, hE, hwf1, hids, hn, hfr, hrow, hcid, hty, hdata⟩ :=
          addMorphismMappingC_ok hwf hatt fid ia ix
        have hfid1 : fid < st1.nextId := by
          rw [hn]
          exact Nat.lt_succ_of_lt hfid
        obtain ⟨st4, hE4, hwf4, hatt4, hn4, hfr4⟩ :=
          buildIdentityLoop_ok sc tc fid sid rest st1 hwf1
            (attachedC_of_storeIds hids hatt) hfid1
        have hrow1 : readAcross st1 st.nextId = some c := hrow (Nat.ne_of_lt hfid)
        have hrow4 : readAcross st4 st.nextId = some c := by
          rw [hfr4 st.nextId (by rw [hn]; exact Nat.lt_succ_self _)
            (Ne.symm (Nat.ne_of_lt hfid))]
          exact hrow1
        refine ⟨st4, ?_, hwf4, c, ?_, hty, hdata⟩
        · simp only [buildIdentityLoop, hia, hix, bind, Except.bind, hE, hE4]
        · rw [hcid]
          exact hrow4
      · cases p with
        | mk B Y =>
            cases hib : identityOf sc B with
            | none =>
                obtain ⟨st4, hE4, hwf4, hrowex⟩ := ih st hmem2 hwf hatt hfid
                refine ⟨st4, ?_, hwf4, hrowex⟩
                simp only [buildIdentityLoop, hib, hE4]
            | some ib =>
                cases hiy : identityOf tc Y with
                | none =>
                    obtain ⟨st4, hE4, hwf4, hrowex⟩ := ih st hmem2 hwf hatt hfid
                    refine ⟨st4, ?_, hwf4, hrowex⟩
                    simp only [buildIdentityLoop, hib, hiy, hE4]
                | some iy =>
                    obtain ⟨st1, c, hE, hwf1, hids, hn, hfr, _, _, _, _⟩ :=
                      addMorphismMappingC_ok hwf hatt fid ib iy
                    have hfid1 : fid < st1.nextId := by
                      rw [hn]
                      exact Nat.lt_succ_of_lt hfid
                    obtain ⟨st4, hE4, hwf4, hrowex⟩ :=
                      ih st1 hmem2 hwf1 (attachedC_of_storeIds hids hatt) hfid1
                    refine ⟨st4, ?_, hwf4, hrowex⟩
                    simp only [buildIdentityLoop, hib, hiy, bind, Except.bind,
                      hE, hE4]

theorem ensureLoaded_noop {b : FBuilder} {scId tcId : Id} {sc tc : CatCache}
    (hsc : b.sourceCat = some scId) (htc : b.targetCat = some tcId)
    (hcS : b.sourceCategoryData = some sc) (hcT : b.targetCategoryData = some tc)
    (st : ClientState) : ensureLoaded b st = Except.ok b := by
  unfold ensureLoaded
  simp only [hsc, htc, hcS, hcT]

theorem getFunctorC_some {st : ClientState} {i : Id} {c : StoredCTC}
    (h : getFunctorC st i = some c) : readAcross st i = some c := by
  unfold getFunctorC at h
  cases hr : readAcross st i with
  | none =>
      simp only [hr] at h
      exact h
  | some c2 =>
      simp only [hr] at h
      by_cases ht : c2.type = CTCType.Functor
      · rw [if_pos ht] at h
        injection h with h
        rw [h]
      · rw [if_neg ht] at h
        exact Option.noConfusion h

/-- The engine of the amended C3: when the validated builder lists `A ↦ X`
among its effective object mappings and both endpoints are found in the
cached category listings with stored identity ids, a successful build
persists the MorphismMapping row for the pair of identities. -/
theorem buildF_identity_row {st : ClientState} {b : FBuilder} {sid : Id}
    {r : VResult} {b1 : FBuilder} {scId tcId : Id} {sc tc : CatCache}
    {A X ia ix : Id}
    (hwf : WF st) (hatt : attachedC st sid)
    (hval : validateF b st = Except.ok (r, b1)) (hvalid : r.valid = true)
    (hbst : b1.store = some sid) (hbsc : b1.sourceCat = some scId)
    (hbtc : b1.targetCat = some tcId)
    (hcS : b1.sourceCategoryData = some sc) (hcT : b1.targetCategoryData = some tc)
    (hmem : (A, X) ∈ objectMappingsF b1)
    (hia : identityOf sc A = some ia) (hix : identityOf tc X = some ix) :
    ∃ b2 st4 F rowC,
      buildF b st = Except.ok (b2, st4, F) ∧
      readAcross st4 rowC.signature.id = some rowC ∧
      rowC.type = CTCType.MorphismMapping ∧
      getMorphismMappingData rowC.data =
        some { functorId := F.signature.id, sourceMorphismId := ia,
               targetMorphismId := ix } := by
  obtain ⟨st1, F, hEF, hwf1, hatt1, hn1, hFid⟩ :=
    createFunctorC_ok hwf hatt scId tcId
      { name := b1.name, description := b1.description }
  obtain ⟨st2, hOL, hwf2, hatt2, hn2⟩ :=
    buildObjectLoop_ok F.signature.id sid (objectMappingsF b1) st1 hwf1 hatt1
  obtain ⟨st3, hML, hwf3, hatt3, hn3⟩ :=
    buildMorphismLoop_ok F.signature.id sid b1.morphismMappings st2 hwf2 hatt2
  have hfid3 : F.signature.id < st3.nextId := by
    rw [hFid]
    have h1 : st.nextId < st1.nextId := by
      rw [hn1]
      exact Nat.lt_succ_self _
    exact Nat.lt_of_lt_of_le h1 (Nat.le_trans hn2 hn3)
  obtain ⟨st4, hIL, hwf4, rowC, hrow, hty, hdata⟩ :=
    buildIdentityLoop_creates sc tc F.signature.id sid A X ia ix hia hix
      (objectMappingsF b1) st3 hmem hwf3 hatt3 hfid3
  cases hgf : getFunctorC st4 F.signature.id with
  | some refreshed =>
      have hre : refreshed.signature.id = F.signature.id :=
        readAcross_sig_id hwf4.2.1 (getFunctorC_some hgf)
      refine ⟨b1, st4, refreshed, rowC, ?_, hrow, hty, ?_⟩
      · unfold buildF
        simp only [bind, Except.bind, hval]
        rw [if_pos hvalid]
        simp only [hbst, hbsc, hbtc]
        simp only [hEF]
        simp only [hOL]
        simp only [hML]
        simp only [ensureLoaded_noop hbsc hbtc hcS hcT st3]
        simp only [hcS, hcT]
        simp only [hIL]
        simp only [hgf]
      · rw [hre]
        exact hdata
  | none =>
      refine ⟨b1, st4, F, rowC, ?_, hrow, hty, hdata⟩
      unfold buildF
      simp only [bind, Except.bind, hval]
      rw [if_pos hvalid]
      simp only [hbst, hbsc, hbtc]
      simp only [hEF]
      simp only [hOL]
      simp only [hML]
      simp only [ensureLoaded_noop hbsc hbtc hcS hcT st3]
      simp only [hcS, hcT]
      simp only [hIL]
      simp only [hgf]

theorem collectMorphismTargets_mem {st : ClientState} {reqS reqT : Option Id}
    {tms : List StoredCTC} {c : StoredCTC}
    (h : c ∈ collectMorphismTargets st reqS reqT tms) :
    ∃ tm ∈ tms, ∃ tmd, getMorphismData tm = some tmd ∧
      tmd.isIdentity ≠ some true ∧ getMorphismC st tm.signature.id = some c := by
  induction tms with
  | nil => exact absurd h (List.not_mem_nil _)
  | cons tm rest ih =>
      rw [collectMorphismTargets] at h
      cases hd : getMorphismData tm with
      | none =>
          simp only [hd] at h
          obtain ⟨tm2, hm2, tmd2, h1, h2, h3⟩ := ih h
          exact ⟨tm2, List.mem_cons_of_mem _ hm2, tmd2, h1, h2, h3⟩
      | some tmData =>
          simp only [hd] at h
          by_cases hid : tmData.isIdentity = some true
          · rw [if_pos hid] at h
            obtain ⟨tm2, hm2, tmd2, h1, h2, h3⟩ := ih h
            exact ⟨tm2, List.mem_cons_of_mem _ hm2, tmd2, h1, h2, h3⟩
          · rw [if_neg hid] at h
            split at h
            · obtain ⟨tm2, hm2, tmd2, h1, h2, h3⟩ := ih h
              exact ⟨tm2, List.mem_cons_of_mem _ hm2, tmd2, h1, h2, h3⟩
            · split at h
              · obtain ⟨tm2, hm2, tmd2, h1, h2, h3⟩ := ih h
                exact ⟨tm2, List.mem_cons_of_mem _ hm2, tmd2, h1, h2, h3⟩
              · cases hg : getMorphismC st tm.signature.id with
                | none =>
                    simp only [hg] at h
                    obtain ⟨tm2, hm2, tmd2, h1, h2, h3⟩ := ih h
                    exact ⟨tm2, List.mem_cons_of_mem _ hm2, tmd2, h1, h2, h3⟩
                | some rich =>
                    simp only [hg] at h
                    rcases List.mem_cons.mp h with h1 | h1
                    · subst h1
                      exact ⟨tm, List.mem_cons_self _ _, tmData, hd, hid, hg⟩
                    · obtain ⟨tm2, hm2, tmd2, hh1, hh2, hh3⟩ := ih h1
                      exact ⟨tm2, List.mem_cons_of_mem _ hm2, tmd2, hh1, hh2, hh3⟩

/-- Inversion of `listAvailableMorphismTargets`: every offered candidate is
the Client fetch of a cached target-category morphism that is not an
identity. -/
theorem listAvailable_excludes_identities {b : FBuilder} {st : ClientState}
    {sourceId : Id} {res : List StoredCTC} {b2 : FBuilder}
    (h : listAvailableMorphismTargetsF b st sourceId = Except.ok (res, b2)) :
    ∃ tcc, b2.targetCategoryData = some tcc ∧
      ∀ c ∈ res, ∃ tm ∈ tcc.morphisms, ∃ tmd, getMorphismData tm = some tmd ∧
        tmd.isIdentity ≠ some true ∧ getMorphismC st tm.signature.id = some c := by
  unfold listAvailableMorphismTargetsF at h
  cases hEL : ensureLoaded b st with
  | error e =>
      simp only [hEL, bind, Except.bind] at h
      exact Except.noConfusion h
  | ok b1 =>
      simp only [hEL, bind, Except.bind] at h
      cases hCD : computeDerivedMappings b1 st with
      | error e =>
          simp only [hCD] at h
          exact Except.noConfusion h
      | ok pr =>
          simp only [hCD] at h
          cases pr with
          | mk b2x confl =>
              cases hS : b2x.sourceCategoryData with
              | none =>
                  simp only [hS] at h
                  exact Except.noConfusion h
              | some scc =>
                  cases hT : b2x.targetCategoryData with
                  | none =>
                      simp only [hS, hT] at h
                      exact Except.noConfusion h
                  | some tcc =>
                      simp only [hS, hT] at h
                      cases hF : findById scc.morphisms sourceId with
                      | none =>
                          simp only [hF] at h
                          exact Except.noConfusion h
                      | some sourceMor =>
                          simp only [hF] at h
                          cases hMD : getMorphismData sourceMor with
                          | none =>
                              simp only [hMD] at h
                              exact Except.noConfusion h
                          | some srcMorData =>
                              simp only [hMD] at h
                              injection h with h
                              injection h with h1 h2
                              subst h2
                              refine ⟨tcc, hT, ?_⟩
                              intro c hc
                              rw [← h1] at hc
                              exact collectMorphismTargets_mem hc

/-- The C3 counterexample builder: source category 0, target category 1
on store 100, one manual object mapping `18 ↦ 8`; object 18 exists and
carries a stored identity, but is not a member of category 0. -/
def bC3cex : FBuilder :=
  match mapObjectF { store := some 100, sourceCat := some 0, targetCat := some 1 } 18 8 with
  | Except.ok b => b
  | Except.error _ => {}

/-- Counterexample to claim C3 as frozen: in the example federation both
object 18 (uncategorized) and object 8 carry a stored
`identityMorphismId` (19 and 9), the builder validates and `18 ↦ 8` is an
effective object mapping, and build succeeds - yet the final state holds
no MorphismMapping row at all for the new functor, because the identity
pass looks endpoints up in the cached category listing and 18 is not in
the source category listing. -/
theorem identity_row_missing_for_unlisted_pair_cex :
    ((readAcross baseSt 18).bind fun c =>
      (getObjectData c).bind fun od => od.identityMorphismId) = some 19 ∧
    ((readAcross baseSt 8).bind fun c =>
      (getObjectData c).bind fun od => od.identityMorphismId) = some 9 ∧
    (validateF bC3cex baseSt).map
      (fun p => (p.1.valid, lookupA 18 (objectMappingsF p.2))) =
      Except.ok (true, some 8) ∧
    (buildF bC3cex baseSt).map
      (fun t => qMorphismMappings t.2.1 t.2.2.signature.id) = Except.ok [] := by
  refine ⟨by decide, by decide, by decide, by decide⟩

/-- Claim C3 (amended): during a successful build the MorphismMapping row
`id_A ↦ id_X` is created for an effective object pair `A ↦ X` exactly
from the cached category listings: it is guaranteed when both endpoints
are listed members of their configured categories with stored identity
ids (whether the pair was declared manually or only derived); an
effective pair whose source is not in the cached source-category listing
gets no identity row even if its stored data carries an
`identityMorphismId`. Identity morphisms are indeed never offered by
`listAvailableMorphismTargets`: every candidate is the fetch of a cached
non-identity target-category morphism. -/
theorem build_maps_identities_for_listed_pairs :
    (∀ (st : ClientState) (b : FBuilder) (sid : Id) (r : VResult) (b1 : FBuilder)
        (scId tcId : Id) (sc tc : CatCache) (A X ia ix : Id),
      WF st → attachedC st sid →
      validateF b st = Except.ok (r, b1) → r.valid = true →
      b1.store = some sid → b1.sourceCat = some scId → b1.targetCat = some tcId →
      b1.sourceCategoryData = some sc → b1.targetCategoryData = some tc →
      (A, X) ∈ objectMappingsF b1 →
      identityOf sc A = some ia → identityOf tc X = some ix →
      ∃ b2 st4 F rowC,
        buildF b st = Except.ok (b2, st4, F) ∧
        readAcross st4 rowC.signature.id = some rowC ∧
        rowC.type = CTCType.MorphismMapping ∧
        getMorphismMappingData rowC.data =
          some { functorId := F.signature.id, sourceMorphismId := ia,
                 targetMorphismId := ix }) ∧
    (∀ (b : FBuilder) (st : ClientState) (sourceId : Id) (res : List StoredCTC)
        (b2 : FBuilder),
      listAvailableMorphismTargetsF b st sourceId = Except.ok (res, b2) →
      ∃ tcc, b2.targetCategoryData = some tcc ∧
        ∀ c ∈ res, ∃ tm ∈ tcc.morphisms, ∃ tmd, getMorphismData tm = some tmd ∧
          tmd.isIdentity ≠ some true ∧ getMorphismC st tm.signature.id = some c) :=
  ⟨fun _ _ _ _ _ _ _ _ _ _ _ _ _ hwf hatt hval hvalid hbst hbsc
      hbtc hcS hcT hmem hia hix =>
     buildF_identity_row hwf hatt hval hvalid hbst hbsc hbtc hcS hcT hmem hia hix,
   fun _ _ _ _ _ h => listAvailable_excludes_identities h⟩

/-- The C3 witness builder: the manual mapping `2 ↦ 8` between listed
objects of the two categories. -/
def bC3w : FBuilder :=
  match mapObjectF { store := some 100, sourceCat := some 0, targetCat := some 1 } 2 8 with
  | Except.ok b => b
  | Except.error _ => {}

/-- The validated C3 witness builder and its validation result. -/
def vC3 : VResult × FBuilder :=
  match validateF bC3w baseSt with
  | Except.ok p => p
  | Except.error _ => (⟨false, []⟩, bC3w)

/-- The listing result of `listAvailableMorphismTargets` for morphism 14
on the C3 witness builder. -/
def lC3 : List StoredCTC × FBuilder :=
  match listAvailableMorphismTargetsF bC3w baseSt 14 with
  | Except.ok p => p
  | Except.error _ => ([], bC3w)

/-- Witness for C3 (amended) at the example federation: mapping `2 ↦ 8`
(identities 3 and 9, both objects listed in their categories) yields a
build that persists the identity row `3 ↦ 9`; and the morphism-target
listing for morphism 14 offers only fetches of cached non-identity
morphisms. -/
theorem build_maps_identities_for_listed_pairs_witness :
    (WF baseSt ∧ attachedC baseSt 100 ∧
     validateF bC3w baseSt = Except.ok (vC3.1, vC3.2) ∧ vC3.1.valid = true ∧
     vC3.2.store = some 100 ∧ vC3.2.sourceCat = some 0 ∧
     vC3.2.targetCat = some 1 ∧
     vC3.2.sourceCategoryData = some (cacheOrEmpty vC3.2.sourceCategoryData) ∧
     vC3.2.targetCategoryData = some (cacheOrEmpty vC3.2.targetCategoryData) ∧
     ((2 : Id), (8 : Id)) ∈ objectMappingsF vC3.2 ∧
     identityOf (cacheOrEmpty vC3.2.sourceCategoryData) 2 = some 3 ∧
     identityOf (cacheOrEmpty vC3.2.targetCategoryData) 8 = some 9) ∧
    (∃ b2 st4 F rowC,
      buildF bC3w baseSt = Except.ok (b2, st4, F) ∧
      readAcross st4 rowC.signature.id = some rowC ∧
      rowC.type = CTCType.MorphismMapping ∧
      getMorphismMappingData rowC.data =
        some { functorId := F.signature.id, sourceMorphismId := 3,
               targetMorphismId := 9 }) ∧
    (listAvailableMorphismTargetsF bC3w baseSt 14 = Except.ok (lC3.1, lC3.2) ∧
     ∃ tcc, lC3.2.targetCategoryData = some tcc ∧
       ∀ c ∈ lC3.1, ∃ tm ∈ tcc.morphisms, ∃ tmd, getMorphismData tm = some tmd ∧
         tmd.isIdentity ≠ some true ∧
         getMorphismC baseSt tm.signature.id = some c) :=
  ⟨⟨by decide, by decide, by decide, by decide, by decide, by decide, by decide,
    by decide, by decide, by decide, by decide, by decide⟩,
   build_maps_identities_for_listed_pairs.1 baseSt bC3w 100 vC3.1 vC3.2 0 1
     (cacheOrEmpty vC3.2.sourceCategoryData) (cacheOrEmpty vC3.2.targetCategoryData)
     2 8 3 9 (by decide) (by decide) (by decide) (by decide) (by decide)
     (by decide) (by decide) (by decide) (by decide) (by decide) (by decide)
     (by decide),
   by decide,
   build_maps_identities_for_listed_pairs.2 bC3w baseSt 14 lC3.1 lC3.2
     (by decide)⟩

end Ctkr
